import Mathlib

/-!
Verification of the swucol collection import and threshold engine.

Shallow embedding of the core of the `swucol` repository:

* the CSV normalizer `parseCardsCSV` (src/cards/handler.go), on top of a
  character-level model of Go's `encoding/csv` reader with default options
  (`Comma = ','`, `LazyQuotes = false`, `TrimLeadingSpace = false`,
  `FieldsPerRecord` starting at 0);
* the import coordinator `importCards` (src/cards/handler.go) over a
  relational model of the SQLite-backed store (src/unnamed/part_004);
* the schema migration `RunMigrations` / `addColumnIfNotExists`
  (src/unnamed/part_004);
* the wishlist projection `GetWishlistCards` (src/unnamed/part_004).

The store is modelled as the ordered list of rows of the `cards` table.
Network and file-system effects are modelled by explicit oracle/state
parameters; timed sleeps and downloads are recorded in an event trace.
-/

namespace Swucol

/-! ## Character-level model of Go `encoding/csv` reading

The input byte stream is modelled as a `List Char` (one `Char` per byte).
-/

/-- Model of the Go csv `lengthNL`: 1 if the line ends in a newline, else 0. -/
def lengthNL (l : List Char) : Nat :=
  if l.getLast? = some '\n' then 1 else 0

/-- Split the stream at the first newline.  The first component is the
prefix up to and including the first `'\n'` (or the whole stream when no
newline remains), the second component is the rest of the stream. -/
def splitAtNewline : List Char → List Char × List Char
  | [] => ([], [])
  | c :: rest =>
    if c = '\n' then ([c], rest)
    else
      let p := splitAtNewline rest
      (c :: p.1, p.2)

theorem splitAtNewline_append (s : List Char) :
    (splitAtNewline s).1 ++ (splitAtNewline s).2 = s := by
  induction s with
  | nil => simp [splitAtNewline]
  | cons c rest ih =>
    by_cases h : c = '\n'
    · simp [splitAtNewline, h]
    · simp only [splitAtNewline, if_neg h, List.cons_append, List.cons.injEq,
        true_and]
      exact ih

theorem splitAtNewline_length (s : List Char) :
    (splitAtNewline s).1.length + (splitAtNewline s).2.length = s.length := by
  conv_rhs => rw [← splitAtNewline_append s]
  simp

theorem splitAtNewline_fst_length_pos (c : Char) (rest : List Char) :
    0 < (splitAtNewline (c :: rest)).1.length := by
  by_cases h : c = '\n' <;> simp [splitAtNewline, h]

/-- Model of the Go csv `readLine`: read one line from the stream, including
its terminating `'\n'` when present; normalize a trailing `"\r\n"` to `"\n"`,
and drop a trailing `'\r'` on the final unterminated line.  Returns `none`
at end of input (Go's `io.EOF`). -/
def readLine (s : List Char) : Option (List Char × List Char) :=
  match s with
  | [] => none
  | c :: rest =>
    let p := splitAtNewline (c :: rest)
    let raw := p.1
    let line :=
      if raw.getLast? = some '\n' then
        if raw.dropLast.getLast? = some '\r' then raw.dropLast.dropLast ++ ['\n'] else raw
      else
        if raw.getLast? = some '\r' then raw.dropLast else raw
    some (line, p.2)

theorem readLine_length {s line rest : List Char}
    (h : readLine s = some (line, rest)) :
    line.length + rest.length ≤ s.length ∧ rest.length < s.length := by
  match s with
  | [] => simp [readLine] at h
  | c :: s' =>
    have hsplit := splitAtNewline_length (c :: s')
    have hpos := splitAtNewline_fst_length_pos c s'
    simp only [readLine] at h
    obtain ⟨hline, hrest⟩ := Prod.mk.injEq .. ▸ Option.some.injEq .. ▸ h
    have hlen : line.length ≤ (splitAtNewline (c :: s')).1.length := by
      rw [← hline]
      split
      · split
        · simp only [List.length_append, List.length_dropLast, List.length_cons,
            List.length_nil]
          omega
        · exact le_rfl
      · split
        · simp only [List.length_dropLast]; omega
        · exact le_rfl
    rw [← hrest]
    constructor
    · omega
    · simp only [List.length_cons] at hsplit ⊢
      omega

/-- Model of the line-skipping loop at the top of Go csv `readRecord`: skip
lines that are empty or contain only a newline, returning the first content
line together with the rest of the stream (`none` at end of input). -/
def skipToContent (s : List Char) : Option (List Char × List Char) :=
  match h : readLine s with
  | none => none
  | some (line, rest) =>
    if line.length = lengthNL line then skipToContent rest
    else some (line, rest)
termination_by s.length
decreasing_by exact (readLine_length h).2

theorem skipToContent_length {s line rest : List Char}
    (h : skipToContent s = some (line, rest)) :
    line.length + rest.length ≤ s.length ∧ 0 < line.length := by
  induction s using skipToContent.induct with
  | case1 s heq => rw [skipToContent, heq] at h; exact absurd h (by simp)
  | case2 s l r heq hskip ih =>
    rw [skipToContent, heq] at h
    simp only [if_pos hskip] at h
    have := (readLine_length heq).1
    have := ih h
    omega
  | case3 s l r heq hskip =>
    rw [skipToContent, heq] at h
    simp only [if_neg hskip] at h
    obtain ⟨rfl, rfl⟩ := Prod.mk.injEq .. ▸ Option.some.injEq .. ▸ h
    refine ⟨(readLine_length heq).1, ?_⟩
    by_contra hz
    have hl0 : l.length = 0 := by omega
    apply hskip
    rw [hl0]
    have : l = [] := List.length_eq_zero.mp hl0
    simp [this, lengthNL]

/-- Errors produced by the modelled csv reader (Go `csv.ErrBareQuote`,
`csv.ErrQuote`, `csv.ErrFieldCount`). -/
inductive ReadErr where
  | bareQuote
  | quote
  | fieldCount
deriving DecidableEq, Repr

theorem dropWhile_length_le (p : Char → Bool) (l : List Char) :
    (l.dropWhile p).length ≤ l.length := by
  have := congrArg List.length (List.takeWhile_append_dropWhile p l)
  simp only [List.length_append] at this
  omega

mutual

/-- Model of the field loop of Go csv `readRecord`: parse the fields of one
record from `line` (the current line, newline-terminated except possibly at
end of input), pulling continuation lines from `rest` for quoted fields.
Default options: comma separator, no lazy quotes, no space trimming. -/
def parseFields (line rest : List Char) (acc : List String) :
    Except ReadErr (List String) × List Char :=
  if hq : line.head? = some '"' then quotedField line.tail rest [] acc
  else
    match hd : line.dropWhile (· != ',') with
    | [] =>
      let field := line.take (line.length - lengthNL line)
      if field.contains '"' then (Except.error ReadErr.bareQuote, rest)
      else (Except.ok (acc ++ [field.asString]), rest)
    | _ :: after =>
      let field := line.takeWhile (· != ',')
      if field.contains '"' then (Except.error ReadErr.bareQuote, rest)
      else parseFields after rest (acc ++ [field.asString])
termination_by line.length + rest.length
decreasing_by
  · have hne : line ≠ [] := by
      intro hnil; rw [hnil] at hq; simp at hq
    have : 0 < line.length := List.length_pos.mpr hne
    simp only [List.length_tail]
    omega
  · have := dropWhile_length_le (· != ',') line
    rw [hd] at this
    simp only [List.length_cons] at this
    omega

/-- Model of the quoted-field loop of Go csv `readRecord`: `cur` is the
remaining text of the current line after the opening (or an inner) quote,
`content` the field text accumulated so far. -/
def quotedField (cur rest content : List Char) (acc : List String) :
    Except ReadErr (List String) × List Char :=
  let dw := cur.dropWhile (· != '"')
  if hdw : dw = [] then
    if hc : cur = [] then (Except.error ReadErr.quote, rest)
    else
      match hr : readLine rest with
      | none => (Except.error ReadErr.quote, rest)
      | some (l, rest') => quotedField l rest' (content ++ cur) acc
  else
    let after := dw.tail
    let content' := content ++ cur.takeWhile (· != '"')
    if h2 : after.head? = some '"' then quotedField after.tail rest (content' ++ ['"']) acc
    else if h3 : after.head? = some ',' then parseFields after.tail rest (acc ++ [content'.asString])
    else if after.length = lengthNL after then (Except.ok (acc ++ [content'.asString]), rest)
    else (Except.error ReadErr.quote, rest)
termination_by cur.length + rest.length
decreasing_by
  · have h1 := (readLine_length hr).1
    have h2 := (readLine_length hr).2
    have hpos : 0 < cur.length := List.length_pos.mpr hc
    omega
  · have hle : dw.length ≤ cur.length := dropWhile_length_le (· != '"') cur
    have hdpos : 0 < dw.length := List.length_pos.mpr hdw
    have hne : after ≠ [] := by
      intro hnil; rw [hnil] at h2; simp at h2
    have hpos : 0 < after.length := List.length_pos.mpr hne
    have hafter : after.length = dw.length - 1 := List.length_tail dw
    have htail : after.tail.length = after.length - 1 := List.length_tail after
    rw [htail, hafter]
    omega
  · have hle : dw.length ≤ cur.length := dropWhile_length_le (· != '"') cur
    have hdpos : 0 < dw.length := List.length_pos.mpr hdw
    have hne : after ≠ [] := by
      intro hnil; rw [hnil] at h3; simp at h3
    have hpos : 0 < after.length := List.length_pos.mpr hne
    have hafter : after.length = dw.length - 1 := List.length_tail dw
    have htail : after.tail.length = after.length - 1 := List.length_tail after
    rw [htail, hafter]
    omega

end


theorem fields_rest_length_le :
    (∀ line rest acc, ((parseFields line rest acc).2.length ≤ rest.length))
    ∧ (∀ cur rest content acc, ((quotedField cur rest content acc).2.length ≤ rest.length)) := by
  apply parseFields.mutual_induct
    (fun line rest acc => (parseFields line rest acc).2.length ≤ rest.length)
    (fun cur rest content acc => (quotedField cur rest content acc).2.length ≤ rest.length)
  · intro line rest acc hq ih
    rw [parseFields, dif_pos hq]
    exact ih
  · intro line rest acc hq hd field hcont
    rw [parseFields, dif_neg hq]
    split
    next => dsimp only; split <;> simp
    next head after heq => rw [hd] at heq; cases heq
  · intro line rest acc hq hd field hcont
    rw [parseFields, dif_neg hq]
    split
    next => dsimp only; split <;> simp
    next head after heq => rw [hd] at heq; cases heq
  · intro line rest acc hq head after hd field hcont
    rw [parseFields, dif_neg hq]
    split
    next heq => rw [hd] at heq; cases heq
    next head2 after2 heq =>
      rw [hd] at heq; cases heq
      dsimp only
      split
      next => simp
      next h => exact absurd hcont h
  · intro line rest acc hq head after hd field hcont ih
    rw [parseFields, dif_neg hq]
    split
    next heq => rw [hd] at heq; cases heq
    next head2 after2 heq =>
      rw [hd] at heq; cases heq
      dsimp only
      split
      next h => exact absurd h hcont
      next => exact ih
  · intro rest content acc dw hdw
    rw [quotedField]
    simp
  · intro cur rest content acc dw hdw hc hr
    rw [quotedField]
    dsimp only
    rw [dif_pos hdw, dif_neg hc]
    split
    next => simp
    next l r heq => simp [hr] at heq
  · intro cur rest content acc dw hdw hc l r hr ih
    rw [quotedField]
    dsimp only
    rw [dif_pos hdw, dif_neg hc]
    split
    next heq => simp [hr] at heq
    next l2 r2 heq =>
      rw [hr] at heq
      cases heq
      have := (readLine_length hr).2
      omega
  · intro cur rest content acc dw hdw after content2 h2 ih
    rw [quotedField]
    dsimp only
    rw [dif_neg hdw, dif_pos h2]
    exact ih
  · intro cur rest content acc dw hdw after content2 h2 h3 ih
    rw [quotedField]
    dsimp only
    rw [dif_neg hdw, dif_neg h2, dif_pos h3]
    exact ih
  · intro cur rest content acc dw hdw after h2 h3 hnl
    rw [quotedField]
    dsimp only
    rw [dif_neg hdw, dif_neg h2, dif_neg h3, if_pos hnl]
  · intro cur rest content acc dw hdw after h2 h3 hnl
    rw [quotedField]
    dsimp only
    rw [dif_neg hdw, dif_neg h2, dif_neg h3, if_neg hnl]

/-- One record read, modelling Go `csv.Reader.Read` with default options.
The `FieldsPerRecord` state (0 = not yet fixed) is threaded explicitly: the
first successfully read record fixes it, and later records whose field count
differs fail with `ReadErr.fieldCount`.  `none` models `io.EOF`. -/
def readRecord (s : List Char) (fieldsPerRecord : Nat) :
    Option ((Except ReadErr (List String)) × List Char × Nat) :=
  match skipToContent s with
  | none => none
  | some (line, rest) =>
    match parseFields line rest [] with
    | (Except.error e, rest2) => some (Except.error e, rest2, fieldsPerRecord)
    | (Except.ok fields, rest2) =>
      if 0 < fieldsPerRecord then
        if fields.length ≠ fieldsPerRecord then
          some (Except.error ReadErr.fieldCount, rest2, fieldsPerRecord)
        else some (Except.ok fields, rest2, fieldsPerRecord)
      else some (Except.ok fields, rest2, fields.length)

theorem readRecord_rest_lt {s rest : List Char} {n n' : Nat}
    {x : Except ReadErr (List String)}
    (h : readRecord s n = some (x, rest, n')) : rest.length < s.length := by
  unfold readRecord at h
  cases hskip : skipToContent s with
  | none => rw [hskip] at h; cases h
  | some p =>
    obtain ⟨line, rest1⟩ := p
    have hlen := skipToContent_length hskip
    have hpf := fields_rest_length_le.1 line rest1 []
    rw [hskip] at h
    dsimp only at h
    cases hpf2 : parseFields line rest1 [] with
    | mk res rest2 =>
      rw [hpf2] at h
      rw [hpf2] at hpf
      simp only at hpf
      cases res with
      | error e =>
        dsimp only at h
        simp only [Option.some.injEq, Prod.mk.injEq] at h
        obtain ⟨_, hrest, _⟩ := h
        subst hrest
        omega
      | ok fields =>
        dsimp only at h
        by_cases hn : 0 < n
        · rw [if_pos hn] at h
          by_cases hne : fields.length ≠ n
          · rw [if_pos hne] at h
            simp only [Option.some.injEq, Prod.mk.injEq] at h
            obtain ⟨_, hrest, _⟩ := h
            subst hrest
            omega
          · rw [if_neg hne] at h
            simp only [Option.some.injEq, Prod.mk.injEq] at h
            obtain ⟨_, hrest, _⟩ := h
            subst hrest
            omega
        · rw [if_neg hn] at h
          simp only [Option.some.injEq, Prod.mk.injEq] at h
          obtain ⟨_, hrest, _⟩ := h
          subst hrest
          omega

theorem readRecord_ok_length {s rest : List Char} {n n' : Nat} {fields : List String}
    (hn : 0 < n) (h : readRecord s n = some (Except.ok fields, rest, n')) :
    fields.length = n ∧ n' = n := by
  unfold readRecord at h
  cases hskip : skipToContent s with
  | none => rw [hskip] at h; cases h
  | some p =>
    obtain ⟨line, rest1⟩ := p
    rw [hskip] at h
    dsimp only at h
    cases hpf2 : parseFields line rest1 [] with
    | mk res rest2 =>
      rw [hpf2] at h
      cases res with
      | error e => dsimp only at h; simp at h
      | ok fields2 =>
        dsimp only at h
        rw [if_pos hn] at h
        by_cases hne : fields2.length ≠ n
        · rw [if_pos hne] at h
          simp at h
        · rw [if_neg hne] at h
          simp only [Option.some.injEq, Prod.mk.injEq, Except.ok.injEq] at h
          obtain ⟨hf, _, hn2⟩ := h
          subst hf
          omega

/-! ## The CSV normalizer `parseCardsCSV` (src/cards/handler.go) -/

/-- `csvColumnCount` from src/cards/handler.go: expected number of columns. -/
def csvColumnCount : Nat := 13

/-- `csvHeaderSet` from src/cards/handler.go: expected first header column. -/
def csvHeaderSet : String := "Set"

/-- The UTF-8 byte order mark, one `Char` per byte (`utf8BOM` in
src/cards/handler.go). -/
def utf8BOM : List Char := [Char.ofNat 0xEF, Char.ofNat 0xBB, Char.ofNat 0xBF]

/-- Model of the BOM stripping at the top of `parseCardsCSV`: peek at the
first three bytes and discard them when they are exactly the UTF-8 BOM. -/
def stripBOM (s : List Char) : List Char :=
  if s.take 3 = utf8BOM then s.drop 3 else s

/-- `models.CardCSV` (src/models/models.go): one CSV data row. -/
structure CardCSV where
  Set             : String
  CardNumber      : String
  CardName        : String
  CardTitle       : String
  CardType        : String
  Aspects         : String
  VariantType     : String
  Rarity          : String
  Foil            : String
  Stamp           : String
  Artist          : String
  OwnedCount      : String
  GroupOwnedCount : String
deriving DecidableEq, Repr

/-- Build a `CardCSV` from a raw record by positional access
`record[0] … record[12]` as in the loop body of `parseCardsCSV`;
`none` models the index-out-of-range panic Go would raise on a record
with fewer than 13 fields. -/
def toCardCSV (record : List String) : Option CardCSV := do
  let f0 ← record.get? 0
  let f1 ← record.get? 1
  let f2 ← record.get? 2
  let f3 ← record.get? 3
  let f4 ← record.get? 4
  let f5 ← record.get? 5
  let f6 ← record.get? 6
  let f7 ← record.get? 7
  let f8 ← record.get? 8
  let f9 ← record.get? 9
  let f10 ← record.get? 10
  let f11 ← record.get? 11
  let f12 ← record.get? 12
  pure ⟨f0, f1, f2, f3, f4, f5, f6, f7, f8, f9, f10, f11, f12⟩

/-- Failure modes of `parseCardsCSV`: a header read failure (EOF or csv
error), a header shape mismatch, a data record read failure, or — proven
unreachable — an out-of-range positional access (`ParseErr.panic`). -/
inductive ParseErr where
  | headerEOF
  | headerRead (e : ReadErr)
  | headerFormat
  | recordRead (e : ReadErr)
  | panic
deriving DecidableEq, Repr

/-- The data-row loop of `parseCardsCSV`: read records until EOF, failing
the whole parse on the first read error. -/
def parseRecords (s : List Char) (fpr : Nat) (acc : List CardCSV) :
    Except ParseErr (List CardCSV) :=
  match hr : readRecord s fpr with
  | none => Except.ok acc
  | some (Except.error e, _, _) => Except.error (ParseErr.recordRead e)
  | some (Except.ok fields, rest, fpr2) =>
    match toCardCSV fields with
    | none => Except.error ParseErr.panic
    | some c => parseRecords rest fpr2 (acc ++ [c])
termination_by s.length
decreasing_by exact readRecord_rest_lt hr

/-- Model of `parseCardsCSV` (src/cards/handler.go): strip an optional BOM,
read the header, require exactly 13 columns with first column `"Set"`, then
materialize all data rows. -/
def parseCardsCSV (input : List Char) : Except ParseErr (List CardCSV) :=
  let s := stripBOM input
  match readRecord s 0 with
  | none => Except.error ParseErr.headerEOF
  | some (Except.error e, _, _) => Except.error (ParseErr.headerRead e)
  | some (Except.ok header, rest, fpr) =>
    if header.length ≠ csvColumnCount ∨ header.get? 0 ≠ some csvHeaderSet then
      Except.error ParseErr.headerFormat
    else parseRecords rest fpr []

/-! ## The import coordinator `importCards` (src/cards/handler.go)

The `cards` table is modelled as the ordered list of its rows; the `id`
column is store-assigned (SQLite `AUTOINCREMENT`) and not referenced by
the importing logic, so it is left implicit (a row's id is its position).
The file system is the list of paths present on disk; the network is an
oracle `dlOk url path : Bool` saying whether downloading `url` to `path`
succeeds (any failure of `downloadCardImage`: request error, non-200 status,
directory/file-write error).  A failed download is modelled as leaving no
file behind.  Sleeps and download attempts are recorded in a trace.
-/

/-- A row of the `cards` table as written by `InsertCard`
(src/unnamed/part_004): `image` is NULL when the path is empty, `owned`
starts at 0.  `owned` is a `Nat`, matching the invariant that owned counts
are never negative. -/
structure CardRow where
  name : String
  image : Option String
  owned : Nat
  mainboard : Bool
deriving DecidableEq, Repr

/-- The names of the rows of the store. -/
def storeNames (store : List CardRow) : List String := store.map (·.name)

/-- Model of `Database.CardExistsByName` (src/unnamed/part_004):
`SELECT COUNT(*) FROM cards WHERE name = ?` is positive iff some row has
exactly this name; an empty name is rejected with an error. -/
def CardExistsByName (store : List CardRow) (name : String) : Except Unit Bool :=
  if name = "" then Except.error ()
  else Except.ok (decide (name ∈ storeNames store))

/-- Model of `Database.InsertCard` (src/unnamed/part_004):
`INSERT INTO cards (name, image, owned, mainboard) VALUES (?, ?, 0, ?)`,
with the image column NULL when `imagePath` is empty; an empty name is
rejected with an error. -/
def InsertCard (store : List CardRow) (name imagePath : String) (mainboard : Bool) :
    Except Unit (List CardRow) :=
  if name = "" then Except.error ()
  else Except.ok (store ++ [⟨name, if imagePath = "" then none else some imagePath, 0, mainboard⟩])

/-- A string that Go `strings.TrimSpace` reduces to the empty string:
every character is whitespace (Lean `Char.isWhitespace` covers the ASCII
space characters; exotic Unicode spaces are not modelled). -/
def isBlank (s : String) : Bool := s.data.all Char.isWhitespace

/-- `cardCSVToName` (src/cards/handler.go): combine CardName and CardTitle
with a comma-space separator; CardName alone when the title is blank
(`strings.TrimSpace(title) == ""`). -/
def cardCSVToName (card : CardCSV) : String :=
  if isBlank card.CardTitle then card.CardName
  else card.CardName ++ ", " ++ card.CardTitle

/-- `buildImageURL` (src/cards/handler.go):
`fmt.Sprintf("%s/%s/%s.png", imageBaseURL, set, cardNumber)` after
non-emptiness checks. -/
def buildImageURL (imageBaseURL set cardNumber : String) : Except String String :=
  if imageBaseURL = "" then Except.error "image base URL must not be empty"
  else if set = "" then Except.error "set must not be empty"
  else if cardNumber = "" then Except.error "card number must not be empty"
  else Except.ok (imageBaseURL ++ "/" ++ set ++ "/" ++ cardNumber ++ ".png")

/-- `buildImageFilePath` (src/cards/handler.go):
`filepath.Join(imagesDir, set+cardNumber+".png")` after non-emptiness
checks; `filepath.Join` is modelled as `/`-separated concatenation. -/
def buildImageFilePath (imagesDir set cardNumber : String) : Except String String :=
  if imagesDir = "" then Except.error "images directory must not be empty"
  else if set = "" then Except.error "set must not be empty"
  else if cardNumber = "" then Except.error "card number must not be empty"
  else Except.ok (imagesDir ++ "/" ++ set ++ cardNumber ++ ".png")

/-- Modelled from the spec: the mainboard derivation for a new card is not
present under src/ (src/cards/handler.go still calls the two-argument
`InsertCard`, while the database layer of src/unnamed/part_004 takes the
mainboard flag).  Per spec section 4.3 it is a pure function of the row's
card-classification fields: leader and base type cards are non-mainboard
(type constants from src/unnamed/part_010). -/
def deriveMainboard (card : CardCSV) : Bool :=
  !(card.CardType == "Leader" || card.CardType == "Base")

/-- `imageDownloadInterval` (src/cards/handler.go): 100 milliseconds between
downloads, i.e. at most 10 image downloads per second. -/
def imageDownloadInterval : Nat := 100

/-- Observable timed events of one `importCards` call: a rate-limit sleep
(with its duration in milliseconds) or a download attempt. -/
inductive Event where
  | sleep (ms : Nat)
  | download (url path : String)
deriving DecidableEq, Repr

/-- Error kind of a failed `importCards` call: invalid CSV (wrapping the
parse failure), a parsed CSV with no card rows, or a database failure.
The first two map to HTTP 400, the last to 500. -/
inductive ImportErrKind where
  | malformedInput (e : ParseErr)
  | emptyInput
  | storeError
deriving DecidableEq, Repr

/-- `importError` (src/cards/handler.go): an error with its HTTP status. -/
structure ImportError where
  statusCode : Nat
  kind : ImportErrKind
deriving DecidableEq, Repr

/-- The state threaded through the row loop of `importCards`: the store and
disk contents, the `seen` name set, the download counter, the observable
event trace, the three log counters, and the error that aborted the loop
(if any). -/
structure ImpState where
  store : List CardRow
  disk : List String
  seen : List String
  downloadCount : Nat
  trace : List Event
  inserted : Nat
  skippedDB : Nat
  skippedCSV : Nat
  error : Option ImportError
deriving DecidableEq, Repr

/-- The image-acquisition block of the `importCards` row loop: build the
local path; reuse it if the file exists (`os.Stat`); otherwise sleep when a
download was already attempted in this call, build the URL and attempt one
download, counting the attempt either way.  Returns the `imagePath` for the
insert ("" on any failure) and the updated state. -/
def acquireImage (dlOk : String → String → Bool) (imagesDir imageBaseURL : String)
    (card : CardCSV) (s : ImpState) : String × ImpState :=
  match buildImageFilePath imagesDir card.Set card.CardNumber with
  | Except.error _ => ("", s)
  | Except.ok filePath =>
    if filePath ∈ s.disk then (filePath, s)
    else
      let s1 := if 0 < s.downloadCount
        then { s with trace := s.trace ++ [Event.sleep imageDownloadInterval] } else s
      let p :=
        match buildImageURL imageBaseURL card.Set card.CardNumber with
        | Except.error _ => ("", s1)
        | Except.ok url =>
          if dlOk url filePath then
            (filePath, { s1 with trace := s1.trace ++ [Event.download url filePath],
                                 disk := s1.disk ++ [filePath] })
          else
            ("", { s1 with trace := s1.trace ++ [Event.download url filePath] })
      (p.1, { p.2 with downloadCount := p.2.downloadCount + 1 })

/-- One iteration of the row loop of `importCards`: skip a name already seen
in this call, then skip a name already in the store, else acquire the image
and insert the card (with the spec-modelled derived mainboard flag).  A
database error sets `error`, which freezes the state for the rest of the
loop (the Go code returns immediately). -/
def importStep (dlOk : String → String → Bool) (imagesDir imageBaseURL : String)
    (s : ImpState) (card : CardCSV) : ImpState :=
  if s.error.isSome then s
  else
    let name := cardCSVToName card
    if name ∈ s.seen then { s with skippedCSV := s.skippedCSV + 1 }
    else
      let s1 := { s with seen := s.seen ++ [name] }
      match CardExistsByName s1.store name with
      | Except.error _ => { s1 with error := some ⟨500, ImportErrKind.storeError⟩ }
      | Except.ok true => { s1 with skippedDB := s1.skippedDB + 1 }
      | Except.ok false =>
        let p := acquireImage dlOk imagesDir imageBaseURL card s1
        match InsertCard p.2.store name p.1 (deriveMainboard card) with
        | Except.error _ => { p.2 with error := some ⟨500, ImportErrKind.storeError⟩ }
        | Except.ok store2 => { p.2 with store := store2, inserted := p.2.inserted + 1 }

/-- The whole row loop of `importCards`. -/
def importRows (dlOk : String → String → Bool) (imagesDir imageBaseURL : String)
    (s : ImpState) (cards : List CardCSV) : ImpState :=
  cards.foldl (importStep dlOk imagesDir imageBaseURL) s

/-- The initial loop state over a given store and disk. -/
def initState (store : List CardRow) (disk : List String) : ImpState :=
  ⟨store, disk, [], 0, [], 0, 0, 0, none⟩

/-- Model of `importCards` (src/cards/handler.go): parse the CSV (400 on
failure), reject an empty row list (400), then run the row loop. -/
def importCards (dlOk : String → String → Bool) (imagesDir imageBaseURL : String)
    (store : List CardRow) (disk : List String) (input : List Char) : ImpState :=
  match parseCardsCSV input with
  | Except.error e =>
    { initState store disk with error := some ⟨400, ImportErrKind.malformedInput e⟩ }
  | Except.ok csvCards =>
    if csvCards.length = 0 then
      { initState store disk with error := some ⟨400, ImportErrKind.emptyInput⟩ }
    else importRows dlOk imagesDir imageBaseURL (initState store disk) csvCards

/-! ## Basic lemmas about the import loop -/

theorem importStep_frozen {dlOk : String → String → Bool} {dir url : String}
    {s : ImpState} {c : CardCSV} (h : s.error.isSome = true) :
    importStep dlOk dir url s c = s := by
  simp [importStep, h]

theorem importRows_frozen {dlOk : String → String → Bool} {dir url : String}
    {s : ImpState} {cards : List CardCSV} (h : s.error.isSome = true) :
    importRows dlOk dir url s cards = s := by
  induction cards with
  | nil => rfl
  | cons c cs ih =>
    show importRows dlOk dir url (importStep dlOk dir url s c) cs = s
    rw [importStep_frozen h]
    exact ih

theorem importRows_append (dlOk : String → String → Bool) (dir url : String)
    (s : ImpState) (a b : List CardCSV) :
    importRows dlOk dir url s (a ++ b)
      = importRows dlOk dir url (importRows dlOk dir url s a) b := by
  simp [importRows, List.foldl_append]

theorem acquireImage_frame (dlOk : String → String → Bool) (dir url : String)
    (c : CardCSV) (s : ImpState) :
    (acquireImage dlOk dir url c s).2.store = s.store ∧
    (acquireImage dlOk dir url c s).2.seen = s.seen ∧
    (acquireImage dlOk dir url c s).2.error = s.error ∧
    (acquireImage dlOk dir url c s).2.inserted = s.inserted ∧
    (acquireImage dlOk dir url c s).2.skippedDB = s.skippedDB ∧
    (acquireImage dlOk dir url c s).2.skippedCSV = s.skippedCSV := by
  unfold acquireImage
  cases hb : buildImageFilePath dir c.Set c.CardNumber with
  | error e => simp
  | ok fp =>
    by_cases hfp : fp ∈ s.disk
    · simp [hfp]
    · cases hu : buildImageURL url c.Set c.CardNumber with
      | error e => by_cases hdc : 0 < s.downloadCount <;> simp [hfp, hu, hdc]
      | ok u =>
        by_cases hdl : dlOk u fp <;> by_cases hdc : 0 < s.downloadCount <;>
          simp [hfp, hu, hdl, hdc]

/-- Exhaustive description of one non-frozen iteration of the row loop:
batch-duplicate skip, store-error abort (empty derived name), store-duplicate
skip, or image acquisition followed by insertion. -/
theorem importStep_cases (dlOk : String → String → Bool) (dir url : String)
    (s : ImpState) (c : CardCSV) (h : s.error = none) :
    (cardCSVToName c ∈ s.seen ∧
      importStep dlOk dir url s c = { s with skippedCSV := s.skippedCSV + 1 }) ∨
    (cardCSVToName c ∉ s.seen ∧ cardCSVToName c = "" ∧
      importStep dlOk dir url s c
        = { s with seen := s.seen ++ [cardCSVToName c],
                   error := some ⟨500, ImportErrKind.storeError⟩ }) ∨
    (cardCSVToName c ∉ s.seen ∧ cardCSVToName c ≠ "" ∧
      cardCSVToName c ∈ storeNames s.store ∧
      importStep dlOk dir url s c
        = { s with seen := s.seen ++ [cardCSVToName c],
                   skippedDB := s.skippedDB + 1 }) ∨
    (cardCSVToName c ∉ s.seen ∧ cardCSVToName c ≠ "" ∧
      cardCSVToName c ∉ storeNames s.store ∧
      importStep dlOk dir url s c
        = (fun q => { q.2 with
              store := q.2.store ++
                [⟨cardCSVToName c, if q.1 = "" then none else some q.1, 0,
                  deriveMainboard c⟩],
              inserted := q.2.inserted + 1 })
            (acquireImage dlOk dir url c { s with seen := s.seen ++ [cardCSVToName c] })) := by
  unfold importStep
  rw [h]
  simp only [Option.isSome_none, Bool.false_eq_true, if_false]
  by_cases hseen : cardCSVToName c ∈ s.seen
  · left
    exact ⟨hseen, by simp [hseen]⟩
  · by_cases hname : cardCSVToName c = ""
    · right; left
      refine ⟨hseen, hname, ?_⟩
      have hseen2 : ("" : String) ∉ s.seen := hname ▸ hseen
      simp [hseen2, CardExistsByName, hname]
    · by_cases hmem : cardCSVToName c ∈ storeNames s.store
      · right; right; left
        refine ⟨hseen, hname, hmem, ?_⟩
        simp [hseen, CardExistsByName, hname, hmem]
      · right; right; right
        refine ⟨hseen, hname, hmem, ?_⟩
        rw [if_neg hseen]
        simp [CardExistsByName, hname, hmem, InsertCard]

/-- A step only ever appends to the store: existing rows are never updated,
merged, or reclassified. -/
theorem importStep_store_append (dlOk : String → String → Bool) (dir url : String)
    (s : ImpState) (c : CardCSV) :
    ∃ t, (importStep dlOk dir url s c).store = s.store ++ t := by
  cases herr : s.error with
  | some e =>
    rw [importStep_frozen (by simp [herr])]
    exact ⟨[], by simp⟩
  | none =>
    rcases importStep_cases dlOk dir url s c herr with
      ⟨_, hout⟩ | ⟨_, _, hout⟩ | ⟨_, _, _, hout⟩ | ⟨_, _, _, hout⟩
    · exact ⟨[], by simp [hout]⟩
    · exact ⟨[], by simp [hout]⟩
    · exact ⟨[], by simp [hout]⟩
    · rw [hout]
      dsimp only
      rw [(acquireImage_frame dlOk dir url c _).1]
      exact ⟨_, rfl⟩

/-- The whole loop only ever appends to the store. -/
theorem importRows_store_append (dlOk : String → String → Bool) (dir url : String)
    (s : ImpState) (cards : List CardCSV) :
    ∃ t, (importRows dlOk dir url s cards).store = s.store ++ t := by
  induction cards generalizing s with
  | nil => exact ⟨[], by simp [importRows]⟩
  | cons c cs ih =>
    show ∃ t, (importRows dlOk dir url (importStep dlOk dir url s c) cs).store = s.store ++ t
    obtain ⟨t1, h1⟩ := importStep_store_append dlOk dir url s c
    obtain ⟨t2, h2⟩ := ih (importStep dlOk dir url s c)
    exact ⟨t1 ++ t2, by rw [h2, h1, List.append_assoc]⟩

/-- A step never removes names from `seen`. -/
theorem importStep_seen_mono (dlOk : String → String → Bool) (dir url : String)
    (s : ImpState) (c : CardCSV) {n : String} (hn : n ∈ s.seen) :
    n ∈ (importStep dlOk dir url s c).seen := by
  cases herr : s.error with
  | some e => rw [importStep_frozen (by simp [herr])]; exact hn
  | none =>
    rcases importStep_cases dlOk dir url s c herr with
      ⟨_, hout⟩ | ⟨_, _, hout⟩ | ⟨_, _, _, hout⟩ | ⟨_, _, _, hout⟩
    · simp [hout, hn]
    · simp [hout, hn]
    · simp [hout, hn]
    · rw [hout]
      dsimp only
      rw [(acquireImage_frame dlOk dir url c _).2.1]
      dsimp only
      simp [hn]

/-- The loop never removes names from `seen`. -/
theorem importRows_seen_mono (dlOk : String → String → Bool) (dir url : String)
    (s : ImpState) (cards : List CardCSV) {n : String} (hn : n ∈ s.seen) :
    n ∈ (importRows dlOk dir url s cards).seen := by
  induction cards generalizing s with
  | nil => exact hn
  | cons c cs ih =>
    exact ih (importStep dlOk dir url s c) (importStep_seen_mono dlOk dir url s c hn)

/-- If the loop ends without error it also started without error. -/
theorem importRows_error_none {dlOk : String → String → Bool} {dir url : String}
    {s : ImpState} {cards : List CardCSV}
    (h : (importRows dlOk dir url s cards).error = none) : s.error = none := by
  cases herr : s.error with
  | none => rfl
  | some e =>
    rw [importRows_frozen (by simp [herr])] at h
    rw [herr] at h
    cases h

/-- A non-frozen, non-aborting step records the row's derived name as seen. -/
theorem importStep_name_seen (dlOk : String → String → Bool) (dir url : String)
    (s : ImpState) (c : CardCSV) (h : s.error = none)
    (h2 : (importStep dlOk dir url s c).error = none) :
    cardCSVToName c ∈ (importStep dlOk dir url s c).seen := by
  rcases importStep_cases dlOk dir url s c h with
    ⟨hin, hout⟩ | ⟨_, _, hout⟩ | ⟨_, _, _, hout⟩ | ⟨_, _, _, hout⟩
  · simp [hout, hin]
  · rw [hout] at h2; cases h2
  · simp [hout]
  · rw [hout]
    dsimp only
    rw [(acquireImage_frame dlOk dir url c _).2.1]
    dsimp only
    simp

/-- After an error-free run, every row of the batch has its derived name in
the final `seen` set. -/
theorem importRows_covered (dlOk : String → String → Bool) (dir url : String) :
    ∀ (cards : List CardCSV) (s : ImpState),
    (importRows dlOk dir url s cards).error = none →
    ∀ c ∈ cards, cardCSVToName c ∈ (importRows dlOk dir url s cards).seen := by
  intro cards
  induction cards with
  | nil => intro s _ c hc; cases hc
  | cons c0 cs ih =>
    intro s hend c hc
    have hrow : importRows dlOk dir url s (c0 :: cs)
        = importRows dlOk dir url (importStep dlOk dir url s c0) cs := rfl
    rw [hrow] at hend ⊢
    have hs1 : (importStep dlOk dir url s c0).error = none := importRows_error_none hend
    have hs : s.error = none := by
      cases herr : s.error with
      | none => rfl
      | some e =>
        rw [importStep_frozen (by simp [herr])] at hs1
        rw [herr] at hs1
        cases hs1
    rcases List.mem_cons.mp hc with rfl | hc2
    · exact importRows_seen_mono dlOk dir url _ cs
        (importStep_name_seen dlOk dir url s c hs hs1)
    · exact ih _ hend c hc2

/-- The invariant "every seen name has a row in the store" is preserved by
each non-aborting step. -/
theorem importStep_inv (dlOk : String → String → Bool) (dir url : String)
    (s : ImpState) (c : CardCSV) (h : s.error = none)
    (hinv : ∀ n ∈ s.seen, n ∈ storeNames s.store)
    (h2 : (importStep dlOk dir url s c).error = none) :
    ∀ n ∈ (importStep dlOk dir url s c).seen,
      n ∈ storeNames (importStep dlOk dir url s c).store := by
  rcases importStep_cases dlOk dir url s c h with
    ⟨hin, hout⟩ | ⟨_, _, hout⟩ | ⟨_, _, hmem, hout⟩ | ⟨_, _, hmem, hout⟩
  · rw [hout]; exact hinv
  · rw [hout] at h2; cases h2
  · rw [hout]
    intro n hn
    dsimp only at hn ⊢
    rcases List.mem_append.mp hn with h1 | h1
    · exact hinv n h1
    · rw [List.mem_singleton.mp h1]; exact hmem
  · rw [hout]
    dsimp only
    rw [(acquireImage_frame dlOk dir url c _).2.1, (acquireImage_frame dlOk dir url c _).1]
    dsimp only
    intro n hn
    rcases List.mem_append.mp hn with h1 | h1
    · have h3 := hinv n h1
      simp only [storeNames, List.map_append, List.mem_append] at h3 ⊢
      exact Or.inl h3
    · simp only [storeNames, List.map_append, List.mem_append]
      right
      rw [List.mem_singleton.mp h1]
      simp

/-- The seen-names-in-store invariant holds at the end of an error-free run. -/
theorem importRows_inv (dlOk : String → String → Bool) (dir url : String) :
    ∀ (cards : List CardCSV) (s : ImpState),
    (∀ n ∈ s.seen, n ∈ storeNames s.store) →
    (importRows dlOk dir url s cards).error = none →
    ∀ n ∈ (importRows dlOk dir url s cards).seen,
      n ∈ storeNames (importRows dlOk dir url s cards).store := by
  intro cards
  induction cards with
  | nil => intro s hinv _; exact hinv
  | cons c0 cs ih =>
    intro s hinv hend
    have hrow : importRows dlOk dir url s (c0 :: cs)
        = importRows dlOk dir url (importStep dlOk dir url s c0) cs := rfl
    rw [hrow] at hend ⊢
    have hs1 : (importStep dlOk dir url s c0).error = none := importRows_error_none hend
    cases herr : s.error with
    | some e =>
      rw [importStep_frozen (by simp [herr])] at hs1
      rw [herr] at hs1
      cases hs1
    | none =>
      exact ih _ (importStep_inv dlOk dir url s c0 herr hinv hs1) hend

/-- In an error-free run no processed row has an empty derived name (an
empty name makes `CardExistsByName` fail, aborting the call), and the seen
set stays free of the empty name. -/
theorem importStep_nonempty (dlOk : String → String → Bool) (dir url : String)
    (s : ImpState) (c : CardCSV) (h : s.error = none) (hne : "" ∉ s.seen)
    (h2 : (importStep dlOk dir url s c).error = none) :
    cardCSVToName c ≠ "" ∧ "" ∉ (importStep dlOk dir url s c).seen := by
  rcases importStep_cases dlOk dir url s c h with
    ⟨hin, hout⟩ | ⟨_, _, hout⟩ | ⟨_, hn, _, hout⟩ | ⟨_, hn, _, hout⟩
  · refine ⟨?_, by simp [hout, hne]⟩
    intro hc
    rw [hc] at hin
    exact hne hin
  · rw [hout] at h2; cases h2
  · refine ⟨hn, ?_⟩
    rw [hout]
    dsimp only
    intro hmem
    rcases List.mem_append.mp hmem with h1 | h1
    · exact hne h1
    · exact hn (List.mem_singleton.mp h1).symm
  · refine ⟨hn, ?_⟩
    rw [hout]
    dsimp only
    rw [(acquireImage_frame dlOk dir url c _).2.1]
    dsimp only
    intro hmem
    rcases List.mem_append.mp hmem with h1 | h1
    · exact hne h1
    · exact hn (List.mem_singleton.mp h1).symm

theorem importRows_nonempty (dlOk : String → String → Bool) (dir url : String) :
    ∀ (cards : List CardCSV) (s : ImpState), "" ∉ s.seen →
    (importRows dlOk dir url s cards).error = none →
    (∀ c ∈ cards, cardCSVToName c ≠ "") ∧
      "" ∉ (importRows dlOk dir url s cards).seen := by
  intro cards
  induction cards with
  | nil => intro s hne _; exact ⟨fun c hc => absurd hc (List.not_mem_nil c), hne⟩
  | cons c0 cs ih =>
    intro s hne hend
    have hrow : importRows dlOk dir url s (c0 :: cs)
        = importRows dlOk dir url (importStep dlOk dir url s c0) cs := rfl
    rw [hrow] at hend ⊢
    have hs1 : (importStep dlOk dir url s c0).error = none := importRows_error_none hend
    have hs : s.error = none := by
      cases herr : s.error with
      | none => rfl
      | some e =>
        rw [importStep_frozen (by simp [herr])] at hs1
        rw [herr] at hs1
        cases hs1
    obtain ⟨hc0, hne1⟩ := importStep_nonempty dlOk dir url s c0 hs hne hs1
    obtain ⟨hall, hne2⟩ := ih _ hne1 hend
    refine ⟨?_, hne2⟩
    intro c hc
    rcases List.mem_cons.mp hc with rfl | hc2
    · exact hc0
    · exact hall c hc2

/-- Running the loop over rows whose names all already exist in the store
changes nothing observable: no insert, no image activity, no error; `seen`
grows only by the batch's names. -/
theorem importRows_skip (dlOk : String → String → Bool) (dir url : String) :
    ∀ (cards : List CardCSV) (s : ImpState), s.error = none →
    (∀ c ∈ cards, cardCSVToName c ≠ "" ∧ cardCSVToName c ∈ storeNames s.store) →
    (importRows dlOk dir url s cards).store = s.store ∧
    (importRows dlOk dir url s cards).disk = s.disk ∧
    (importRows dlOk dir url s cards).trace = s.trace ∧
    (importRows dlOk dir url s cards).error = none ∧
    (importRows dlOk dir url s cards).inserted = s.inserted ∧
    (∀ n ∈ (importRows dlOk dir url s cards).seen,
      n ∈ s.seen ∨ n ∈ cards.map cardCSVToName) := by
  intro cards
  induction cards with
  | nil => intro s hs _; exact ⟨rfl, rfl, rfl, hs, rfl, fun n hn => Or.inl hn⟩
  | cons c0 cs ih =>
    intro s hs hall
    obtain ⟨hn0, hmem0⟩ := hall c0 (List.mem_cons_self c0 cs)
    have hrow : importRows dlOk dir url s (c0 :: cs)
        = importRows dlOk dir url (importStep dlOk dir url s c0) cs := rfl
    rw [hrow]
    have hstep : (importStep dlOk dir url s c0).store = s.store ∧
        (importStep dlOk dir url s c0).disk = s.disk ∧
        (importStep dlOk dir url s c0).trace = s.trace ∧
        (importStep dlOk dir url s c0).error = none ∧
        (importStep dlOk dir url s c0).inserted = s.inserted ∧
        (∀ n ∈ (importStep dlOk dir url s c0).seen,
          n ∈ s.seen ∨ n = cardCSVToName c0) := by
      rcases importStep_cases dlOk dir url s c0 hs with
        ⟨hin, hout⟩ | ⟨_, hn, hout⟩ | ⟨_, _, _, hout⟩ | ⟨_, _, hnm, hout⟩
      · rw [hout]
        exact ⟨rfl, rfl, rfl, hs, rfl, fun n hn => Or.inl hn⟩
      · exact absurd hn hn0
      · rw [hout]
        refine ⟨rfl, rfl, rfl, hs, rfl, ?_⟩
        intro n hn
        rcases List.mem_append.mp hn with h1 | h1
        · exact Or.inl h1
        · exact Or.inr (List.mem_singleton.mp h1)
      · exact absurd hmem0 hnm
    obtain ⟨h1, h2, h3, h4, h5, h6⟩ := hstep
    have hall2 : ∀ c ∈ cs, cardCSVToName c ≠ "" ∧
        cardCSVToName c ∈ storeNames (importStep dlOk dir url s c0).store := by
      intro c hc
      rw [h1]
      exact hall c (List.mem_cons_of_mem c0 hc)
    obtain ⟨g1, g2, g3, g4, g5, g6⟩ := ih _ h4 hall2
    refine ⟨g1.trans h1, g2.trans h2, g3.trans h3, g4, g5.trans h5, ?_⟩
    intro n hn
    rcases g6 n hn with hg | hg
    · rcases h6 n hg with hh | hh
      · exact Or.inl hh
      · exact Or.inr (by simp [hh])
    · exact Or.inr (by simp [hg])

/-- Characterization of an aborted run: the only run-time store failure is
an empty derived name at the first such row; the abort preserves the store,
disk and trace accumulated up to that row, and the remaining rows are not
processed. -/
theorem importRows_abort (dlOk : String → String → Bool) (dir url : String) :
    ∀ (cards : List CardCSV) (s : ImpState), s.error = none →
    ∀ e, (importRows dlOk dir url s cards).error = some e →
    ∃ pre c post, cards = pre ++ c :: post ∧
      (importRows dlOk dir url s pre).error = none ∧
      cardCSVToName c = "" ∧
      importRows dlOk dir url s cards
        = { importRows dlOk dir url s pre with
            seen := (importRows dlOk dir url s pre).seen ++ [cardCSVToName c],
            error := some ⟨500, ImportErrKind.storeError⟩ } := by
  intro cards
  induction cards with
  | nil =>
    intro s hs e hend
    rw [show importRows dlOk dir url s [] = s from rfl, hs] at hend
    cases hend
  | cons c0 cs ih =>
    intro s hs e hend
    have hrow : importRows dlOk dir url s (c0 :: cs)
        = importRows dlOk dir url (importStep dlOk dir url s c0) cs := rfl
    rw [hrow] at hend
    cases herr1 : (importStep dlOk dir url s c0).error with
    | none =>
      obtain ⟨pre, c, post, hsplit, hpre, hname, hout⟩ := ih _ herr1 e hend
      refine ⟨c0 :: pre, c, post, ?_, ?_, hname, ?_⟩
      · rw [List.cons_append, hsplit]
      · exact hpre
      · exact hout
    | some e1 =>
      rcases importStep_cases dlOk dir url s c0 hs with
        ⟨_, hout⟩ | ⟨_, hname, hout⟩ | ⟨_, _, _, hout⟩ | ⟨_, _, _, hout⟩
      · rw [hout] at herr1; rw [hs] at herr1; cases herr1
      · refine ⟨[], c0, cs, rfl, hs, hname, ?_⟩
        rw [hrow, importRows_frozen (by rw [hout]; simp)]
        rw [hout]
        rfl
      · rw [hout] at herr1; rw [hs] at herr1; cases herr1
      · rw [hout] at herr1
        dsimp only at herr1
        rw [(acquireImage_frame dlOk dir url c0 _).2.2.1] at herr1
        dsimp only at herr1
        rw [hs] at herr1
        cases herr1

/-- C1: for every input and store state, importing the same batch twice (with
any download outcomes and any disk states) leaves the store exactly as a
single run does: every name present after the first call is skipped by the
store-existence check on re-import, with no insert and no update. -/
theorem importCards_idempotent (dlOk dlOk2 : String → String → Bool)
    (imagesDir imageBaseURL : String) (store : List CardRow)
    (disk disk2 : List String) (input : List Char) :
    (importCards dlOk2 imagesDir imageBaseURL
        (importCards dlOk imagesDir imageBaseURL store disk input).store disk2 input).store
      = (importCards dlOk imagesDir imageBaseURL store disk input).store := by
  unfold importCards
  cases hp : parseCardsCSV input with
  | error e => simp [initState]
  | ok csvCards =>
    by_cases hlen : csvCards.length = 0
    · simp [hlen, initState]
    · simp only [if_neg hlen]
      set s0 : ImpState := initState store disk with hs0
      set out1 := importRows dlOk imagesDir imageBaseURL s0 csvCards with hout1
      have hs0err : s0.error = none := rfl
      cases herr : out1.error with
      | none =>
        have hcov := importRows_covered dlOk imagesDir imageBaseURL csvCards s0 herr
        have hinv := importRows_inv dlOk imagesDir imageBaseURL csvCards s0
          (by intro n hn; cases hn) herr
        have hnonempty := (importRows_nonempty dlOk imagesDir imageBaseURL csvCards s0
          (by intro hn; cases hn) herr).1
        have hall : ∀ c ∈ csvCards, cardCSVToName c ≠ "" ∧
            cardCSVToName c ∈ storeNames out1.store := by
          intro c hc
          exact ⟨hnonempty c hc, hinv _ (hcov c hc)⟩
        exact (importRows_skip dlOk2 imagesDir imageBaseURL csvCards
          (initState out1.store disk2) rfl hall).1
      | some e =>
        obtain ⟨pre, c, post, hsplit, hpre, hname, habort⟩ :=
          importRows_abort dlOk imagesDir imageBaseURL csvCards s0 hs0err e herr
        set mid := importRows dlOk imagesDir imageBaseURL s0 pre with hmid
        have hstore1 : out1.store = mid.store := by rw [hout1, habort]
        have hcov := importRows_covered dlOk imagesDir imageBaseURL pre s0 hpre
        have hinv := importRows_inv dlOk imagesDir imageBaseURL pre s0
          (by intro n hn; cases hn) hpre
        have hnonempty := (importRows_nonempty dlOk imagesDir imageBaseURL pre s0
          (by intro hn; cases hn) hpre).1
        have hall : ∀ x ∈ pre, cardCSVToName x ≠ "" ∧
            cardCSVToName x ∈ storeNames (initState out1.store disk2).store := by
          intro x hx
          refine ⟨hnonempty x hx, ?_⟩
          show cardCSVToName x ∈ storeNames out1.store
          rw [hstore1]
          exact hinv _ (hcov x hx)
        obtain ⟨g1, _, _, g4, _, g6⟩ := importRows_skip dlOk2 imagesDir imageBaseURL pre
          (initState out1.store disk2) rfl hall
        set mid2 := importRows dlOk2 imagesDir imageBaseURL (initState out1.store disk2) pre
          with hmid2
        have hsplit2 : importRows dlOk2 imagesDir imageBaseURL
            (initState out1.store disk2) csvCards
            = importRows dlOk2 imagesDir imageBaseURL
                (importStep dlOk2 imagesDir imageBaseURL mid2 c) post := by
          rw [hsplit, importRows_append]
          rfl
        have hne2 : cardCSVToName c ∉ mid2.seen := by
          intro hmem
          rcases g6 _ hmem with h1 | h1
          · cases h1
          · rw [hname] at h1
            obtain ⟨x, hx, hxname⟩ := List.mem_map.mp h1
            exact (hall x hx).1 hxname
        rcases importStep_cases dlOk2 imagesDir imageBaseURL mid2 c g4 with
          ⟨hin, _⟩ | ⟨_, _, hout⟩ | ⟨_, hn, _, _⟩ | ⟨_, hn, _, _⟩
        · exact absurd hin hne2
        · rw [hsplit2, importRows_frozen (by rw [hout]; simp), hout]
          dsimp only
          rw [g1, hstore1]
          rfl
        · exact absurd hname hn
        · exact absurd hname hn

/-- The image-acquisition block reads only the disk, download counter and
trace; the three log counters have no influence on it. -/
theorem acquireImage_congr (dlOk : String → String → Bool) (dir url : String)
    (c : CardCSV) :
    ∀ (s s' : ImpState), s.store = s'.store → s.disk = s'.disk → s.seen = s'.seen →
    s.downloadCount = s'.downloadCount → s.trace = s'.trace → s.error = s'.error →
    (acquireImage dlOk dir url c s).1 = (acquireImage dlOk dir url c s').1 ∧
    (acquireImage dlOk dir url c s).2.store = (acquireImage dlOk dir url c s').2.store ∧
    (acquireImage dlOk dir url c s).2.disk = (acquireImage dlOk dir url c s').2.disk ∧
    (acquireImage dlOk dir url c s).2.seen = (acquireImage dlOk dir url c s').2.seen ∧
    (acquireImage dlOk dir url c s).2.downloadCount
      = (acquireImage dlOk dir url c s').2.downloadCount ∧
    (acquireImage dlOk dir url c s).2.trace = (acquireImage dlOk dir url c s').2.trace ∧
    (acquireImage dlOk dir url c s).2.error = (acquireImage dlOk dir url c s').2.error := by
  rintro ⟨a, b, sn, d, tr, i1, k1, k2, er⟩ ⟨a2, b2, sn2, d2, tr2, i2, l1, l2, er2⟩
    h1 h2 h3 h4 h5 h6
  dsimp only at h1 h2 h3 h4 h5 h6
  subst h1; subst h2; subst h3; subst h4; subst h5; subst h6
  unfold acquireImage
  cases hb : buildImageFilePath dir c.Set c.CardNumber with
  | error e => simp
  | ok fp =>
    by_cases hfp : fp ∈ b
    · simp [hfp]
    · cases hu : buildImageURL url c.Set c.CardNumber with
      | error e => by_cases hdc : 0 < d <;> simp [hfp, hu, hdc]
      | ok u =>
        by_cases hdl : dlOk u fp <;> by_cases hdc : 0 < d <;> simp [hfp, hu, hdl, hdc]

/-- One loop iteration reads only the store, disk, seen set, download
counter, trace and error; the log counters never influence its observable
effect. -/
theorem importStep_congr (dlOk : String → String → Bool) (dir url : String)
    (c : CardCSV) :
    ∀ (s s' : ImpState), s.store = s'.store → s.disk = s'.disk → s.seen = s'.seen →
    s.downloadCount = s'.downloadCount → s.trace = s'.trace → s.error = s'.error →
    (importStep dlOk dir url s c).store = (importStep dlOk dir url s' c).store ∧
    (importStep dlOk dir url s c).disk = (importStep dlOk dir url s' c).disk ∧
    (importStep dlOk dir url s c).seen = (importStep dlOk dir url s' c).seen ∧
    (importStep dlOk dir url s c).downloadCount
      = (importStep dlOk dir url s' c).downloadCount ∧
    (importStep dlOk dir url s c).trace = (importStep dlOk dir url s' c).trace ∧
    (importStep dlOk dir url s c).error = (importStep dlOk dir url s' c).error := by
  rintro ⟨a, b, sn, d, tr, i1, k1, k2, er⟩ ⟨a2, b2, sn2, d2, tr2, i2, l1, l2, er2⟩
    h1 h2 h3 h4 h5 h6
  dsimp only at h1 h2 h3 h4 h5 h6
  subst h1; subst h2; subst h3; subst h4; subst h5; subst h6
  unfold importStep
  cases er with
  | some e => simp
  | none =>
    simp only [Option.isSome_none, Bool.false_eq_true, if_false]
    by_cases hseen : cardCSVToName c ∈ sn
    · simp [hseen]
    · simp only [if_neg hseen]
      by_cases hname : cardCSVToName c = ""
      · simp [CardExistsByName, hname]
      · by_cases hmem : cardCSVToName c ∈ storeNames a
        · simp [CardExistsByName, hname, hmem]
        · simp only [CardExistsByName, if_neg hname, decide_eq_false hmem]
          obtain ⟨e0, e1, e2, e3, e4, e5, e6⟩ := acquireImage_congr dlOk dir url c
            ⟨a, b, sn ++ [cardCSVToName c], d, tr, i1, k1, k2, none⟩
            ⟨a, b, sn ++ [cardCSVToName c], d, tr, i2, l1, l2, none⟩
            rfl rfl rfl rfl rfl rfl
          simp [InsertCard, hname, e0, e1, e2, e3, e4, e5, e6]

/-- The whole loop is insensitive to the initial log counters. -/
theorem importRows_congr (dlOk : String → String → Bool) (dir url : String) :
    ∀ (cards : List CardCSV) (s s' : ImpState),
    s.store = s'.store → s.disk = s'.disk → s.seen = s'.seen →
    s.downloadCount = s'.downloadCount → s.trace = s'.trace → s.error = s'.error →
    (importRows dlOk dir url s cards).store = (importRows dlOk dir url s' cards).store ∧
    (importRows dlOk dir url s cards).disk = (importRows dlOk dir url s' cards).disk ∧
    (importRows dlOk dir url s cards).seen = (importRows dlOk dir url s' cards).seen ∧
    (importRows dlOk dir url s cards).downloadCount
      = (importRows dlOk dir url s' cards).downloadCount ∧
    (importRows dlOk dir url s cards).trace = (importRows dlOk dir url s' cards).trace ∧
    (importRows dlOk dir url s cards).error = (importRows dlOk dir url s' cards).error := by
  intro cards
  induction cards with
  | nil => intro s s' h1 h2 h3 h4 h5 h6; exact ⟨h1, h2, h3, h4, h5, h6⟩
  | cons c0 cs ih =>
    intro s s' h1 h2 h3 h4 h5 h6
    obtain ⟨g1, g2, g3, g4, g5, g6⟩ := importStep_congr dlOk dir url c0 s s' h1 h2 h3 h4 h5 h6
    exact ih _ _ g1 g2 g3 g4 g5 g6

/-- Number of rows of the store carrying a given name. -/
def countName (n : String) (store : List CardRow) : Nat :=
  (store.filter (fun r => r.name = n)).length

theorem countName_eq_zero (n : String) (store : List CardRow) :
    countName n store = 0 ↔ n ∉ storeNames store := by
  simp only [countName, List.length_eq_zero, List.filter_eq_nil_iff, storeNames,
    List.mem_map, decide_eq_true_eq]
  constructor
  · rintro h ⟨r, hr, rfl⟩
    exact h r hr rfl
  · intro h r hr hrn
    exact h ⟨r, hr, hrn⟩

theorem countName_pos (n : String) (store : List CardRow) :
    n ∈ storeNames store ↔ 1 ≤ countName n store := by
  rw [Nat.one_le_iff_ne_zero]
  constructor
  · intro h hz
    exact (countName_eq_zero n store).mp hz h
  · intro h
    by_contra hmem
    exact h ((countName_eq_zero n store).mpr hmem)

theorem countName_append (n : String) (a b : List CardRow) :
    countName n (a ++ b) = countName n a + countName n b := by
  simp [countName]

/-- A step keeps every name's multiplicity at most one (re-import can never
produce a second record for a name). -/
theorem importStep_countName_le (dlOk : String → String → Bool) (dir url : String)
    (s : ImpState) (c : CardCSV) (n : String) (h : countName n s.store ≤ 1) :
    countName n (importStep dlOk dir url s c).store ≤ 1 := by
  cases herr : s.error with
  | some e => rw [importStep_frozen (by simp [herr])]; exact h
  | none =>
    rcases importStep_cases dlOk dir url s c herr with
      ⟨_, hout⟩ | ⟨_, _, hout⟩ | ⟨_, _, _, hout⟩ | ⟨_, _, hmem, hout⟩
    · rw [hout]; exact h
    · rw [hout]; exact h
    · rw [hout]; exact h
    · rw [hout]
      dsimp only
      rw [(acquireImage_frame dlOk dir url c _).1]
      show countName n (s.store ++ [_]) ≤ 1
      rw [countName_append]
      by_cases hn : cardCSVToName c = n
      · have h0 : countName n s.store = 0 :=
          (countName_eq_zero n s.store).mpr (hn ▸ hmem)
        rw [h0]
        simp [countName, hn]
      · have h0 : ∀ img, countName n [(⟨cardCSVToName c, img, 0, deriveMainboard c⟩ : CardRow)] = 0 := by
          intro img
          simp [countName, hn]
        rw [h0]
        omega

theorem importRows_countName_le (dlOk : String → String → Bool) (dir url : String) :
    ∀ (cards : List CardCSV) (s : ImpState) (n : String), countName n s.store ≤ 1 →
    countName n (importRows dlOk dir url s cards).store ≤ 1 := by
  intro cards
  induction cards with
  | nil => intro s n h; exact h
  | cons c0 cs ih =>
    intro s n h
    exact ih _ n (importStep_countName_le dlOk dir url s c0 n h)

/-- C2: a batch row whose derived name already occurred earlier in the batch
contributes nothing: the run produces the same store, the same event trace
and the same outcome as the run with that row removed (the first
occurrence's values win), and when the name was not yet in the store the
final store carries exactly one record for it. -/
theorem import_duplicate_first_occurrence_wins
    (dlOk : String → String → Bool) (dir url : String)
    (store : List CardRow) (disk : List String)
    (xs ys : List CardCSV) (r : CardCSV)
    (hdup : cardCSVToName r ∈ xs.map cardCSVToName) :
    ((importRows dlOk dir url (initState store disk) (xs ++ r :: ys)).store
       = (importRows dlOk dir url (initState store disk) (xs ++ ys)).store ∧
     (importRows dlOk dir url (initState store disk) (xs ++ r :: ys)).trace
       = (importRows dlOk dir url (initState store disk) (xs ++ ys)).trace ∧
     (importRows dlOk dir url (initState store disk) (xs ++ r :: ys)).error
       = (importRows dlOk dir url (initState store disk) (xs ++ ys)).error) ∧
    ((importRows dlOk dir url (initState store disk) (xs ++ r :: ys)).error = none →
      cardCSVToName r ∉ storeNames store →
      countName (cardCSVToName r)
        (importRows dlOk dir url (initState store disk) (xs ++ r :: ys)).store = 1) := by
  constructor
  · rw [importRows_append, importRows_append]
    set mid := importRows dlOk dir url (initState store disk) xs with hmid
    have hcons : importRows dlOk dir url mid (r :: ys)
        = importRows dlOk dir url (importStep dlOk dir url mid r) ys := rfl
    rw [hcons]
    cases herr : mid.error with
    | some e =>
      rw [importStep_frozen (by simp [herr])]
      exact ⟨rfl, rfl, rfl⟩
    | none =>
      have hseen : cardCSVToName r ∈ mid.seen := by
        obtain ⟨x, hx, hxname⟩ := List.mem_map.mp hdup
        rw [← hxname]
        exact importRows_covered dlOk dir url xs (initState store disk) herr x hx
      rcases importStep_cases dlOk dir url mid r herr with
        ⟨_, hout⟩ | ⟨hnin, _, _⟩ | ⟨hnin, _, _, _⟩ | ⟨hnin, _, _, _⟩
      · rw [hout]
        obtain ⟨g1, _, _, g4, g5, g6⟩ := importRows_congr dlOk dir url ys
          { mid with skippedCSV := mid.skippedCSV + 1 } mid rfl rfl rfl rfl rfl rfl
        exact ⟨g1, g5, g6⟩
      · exact absurd hseen hnin
      · exact absurd hseen hnin
      · exact absurd hseen hnin
  · intro herr hmem
    have hle : countName (cardCSVToName r)
        (importRows dlOk dir url (initState store disk) (xs ++ r :: ys)).store ≤ 1 := by
      refine importRows_countName_le dlOk dir url _ _ _ ?_
      show countName (cardCSVToName r) store ≤ 1
      rw [(countName_eq_zero _ store).mpr hmem]
      omega
    have hge : 1 ≤ countName (cardCSVToName r)
        (importRows dlOk dir url (initState store disk) (xs ++ r :: ys)).store := by
      rw [← countName_pos]
      refine importRows_inv dlOk dir url (xs ++ r :: ys) (initState store disk)
        (by intro n hn; cases hn) herr _ ?_
      exact importRows_covered dlOk dir url (xs ++ r :: ys) (initState store disk) herr r
        (by simp)
    omega

/-- Under any image-acquisition failure the block returns an empty image
path. -/
theorem acquireImage_fst_fail (dlOk : String → String → Bool) (dir url : String)
    (c : CardCSV) (s : ImpState)
    (hfail :
      (∃ e, buildImageFilePath dir c.Set c.CardNumber = Except.error e) ∨
      (∃ fp, buildImageFilePath dir c.Set c.CardNumber = Except.ok fp ∧ fp ∉ s.disk ∧
        ((∃ e, buildImageURL url c.Set c.CardNumber = Except.error e) ∨
         (∃ u, buildImageURL url c.Set c.CardNumber = Except.ok u ∧ dlOk u fp = false)))) :
    (acquireImage dlOk dir url c s).1 = "" := by
  unfold acquireImage
  rcases hfail with ⟨e, he⟩ | ⟨fp, hfp, hdisk, hrest⟩
  · simp [he]
  · rw [hfp]
    dsimp only
    rw [if_neg hdisk]
    rcases hrest with ⟨e, he⟩ | ⟨u, hu, hdl⟩
    · simp [he]
    · simp [hu, hdl]

/-- C7: a new card (not a batch duplicate, not already stored) whose image
acquisition fails in any way — local path construction error, or no cached
file together with a URL construction error or a failed download — is still
inserted, with a NULL image; the failure never aborts the import call and
never causes the card to be skipped. -/
theorem import_image_failure_still_inserts
    (dlOk : String → String → Bool) (dir url : String) (s : ImpState) (c : CardCSV)
    (herr : s.error = none)
    (hseen : cardCSVToName c ∉ s.seen)
    (hmem : cardCSVToName c ∉ storeNames s.store)
    (hname : cardCSVToName c ≠ "")
    (hfail :
      (∃ e, buildImageFilePath dir c.Set c.CardNumber = Except.error e) ∨
      (∃ fp, buildImageFilePath dir c.Set c.CardNumber = Except.ok fp ∧ fp ∉ s.disk ∧
        ((∃ e, buildImageURL url c.Set c.CardNumber = Except.error e) ∨
         (∃ u, buildImageURL url c.Set c.CardNumber = Except.ok u ∧ dlOk u fp = false)))) :
    (importStep dlOk dir url s c).store
      = s.store ++ [⟨cardCSVToName c, none, 0, deriveMainboard c⟩] ∧
    (importStep dlOk dir url s c).error = none := by
  rcases importStep_cases dlOk dir url s c herr with
    ⟨hin, _⟩ | ⟨_, hn, _⟩ | ⟨_, _, hm, _⟩ | ⟨_, _, _, hout⟩
  · exact absurd hin hseen
  · exact absurd hn hname
  · exact absurd hm hmem
  · rw [hout]
    dsimp only
    have hfail2 :
        (∃ e, buildImageFilePath dir c.Set c.CardNumber = Except.error e) ∨
        (∃ fp, buildImageFilePath dir c.Set c.CardNumber = Except.ok fp ∧
          fp ∉ ({ s with seen := s.seen ++ [cardCSVToName c] } : ImpState).disk ∧
          ((∃ e, buildImageURL url c.Set c.CardNumber = Except.error e) ∨
           (∃ u, buildImageURL url c.Set c.CardNumber = Except.ok u ∧ dlOk u fp = false))) :=
      hfail
    rw [acquireImage_fst_fail dlOk dir url c _ hfail2]
    rw [(acquireImage_frame dlOk dir url c _).1,
      (acquireImage_frame dlOk dir url c _).2.2.1]
    exact ⟨rfl, herr⟩

/-- C9: the mainboard flag of every inserted record is the pure
classification function of the row's fields (spec-modelled
`deriveMainboard`), and the loop only appends to the store, so an existing
card's mainboard value is never reclassified by a later import. -/
theorem import_mainboard_fixed_at_creation
    (dlOk : String → String → Bool) (dir url : String) :
    (∀ (s : ImpState) (c : CardCSV), s.error = none →
      cardCSVToName c ∉ s.seen → cardCSVToName c ∉ storeNames s.store →
      cardCSVToName c ≠ "" →
      ∃ img, (importStep dlOk dir url s c).store
        = s.store ++ [⟨cardCSVToName c, img, 0, deriveMainboard c⟩]) ∧
    (∀ (cards : List CardCSV) (s : ImpState),
      ∃ t, (importRows dlOk dir url s cards).store = s.store ++ t) := by
  constructor
  · intro s c herr hseen hmem hname
    rcases importStep_cases dlOk dir url s c herr with
      ⟨hin, _⟩ | ⟨_, hn, _⟩ | ⟨_, _, hm, _⟩ | ⟨_, _, _, hout⟩
    · exact absurd hin hseen
    · exact absurd hn hname
    · exact absurd hm hmem
    · rw [hout]
      dsimp only
      rw [(acquireImage_frame dlOk dir url c _).1]
      exact ⟨_, rfl⟩
  · intro cards s
    exact importRows_store_append dlOk dir url s cards

/-- Splitting an appended trace at a download event: the event lies either in
the old part or in the extension. -/
theorem trace_split {tr ext pre post : List Event} {u p : String}
    (h : tr ++ ext = pre ++ Event.download u p :: post) :
    (∃ post2, tr = pre ++ Event.download u p :: post2) ∨
    (∃ pre2, pre = tr ++ pre2 ∧ ext = pre2 ++ Event.download u p :: post) := by
  rcases List.append_eq_append_iff.mp h with ⟨a2, ha1, ha2⟩ | ⟨c2, hc1, hc2⟩
  · exact Or.inr ⟨a2, ha1, ha2⟩
  · cases c2 with
    | nil =>
      simp only [List.append_nil] at hc1
      rw [List.nil_append] at hc2
      exact Or.inr ⟨[], by simp [hc1], by simp [hc2]⟩
    | cons e c3 =>
      cases hc2
      exact Or.inl ⟨c3, hc1⟩

/-- The trace/download-counter effect of the image-acquisition block: either
nothing (path error or disk-cache hit), or one attempt, preceded by a sleep
exactly when a previous attempt was made in this call. -/
theorem acquireImage_shape (dlOk : String → String → Bool) (dir url : String)
    (c : CardCSV) (s : ImpState) :
    ((acquireImage dlOk dir url c s).2.trace = s.trace ∧
     (acquireImage dlOk dir url c s).2.downloadCount = s.downloadCount) ∨
    (0 < s.downloadCount ∧
     (acquireImage dlOk dir url c s).2.downloadCount = s.downloadCount + 1 ∧
     ((acquireImage dlOk dir url c s).2.trace
        = s.trace ++ [Event.sleep imageDownloadInterval] ∨
      ∃ u2 p2, (acquireImage dlOk dir url c s).2.trace
        = s.trace ++ [Event.sleep imageDownloadInterval, Event.download u2 p2])) ∨
    (s.downloadCount = 0 ∧
     (acquireImage dlOk dir url c s).2.downloadCount = s.downloadCount + 1 ∧
     ((acquireImage dlOk dir url c s).2.trace = s.trace ∨
      ∃ u2 p2, (acquireImage dlOk dir url c s).2.trace
        = s.trace ++ [Event.download u2 p2])) := by
  unfold acquireImage
  cases hb : buildImageFilePath dir c.Set c.CardNumber with
  | error e => left; exact ⟨rfl, rfl⟩
  | ok fp =>
    by_cases hfp : fp ∈ s.disk
    · left; simp [hfp]
    · by_cases hdc : 0 < s.downloadCount
      · right; left
        refine ⟨hdc, ?_, ?_⟩
        · cases hu : buildImageURL url c.Set c.CardNumber with
          | error e => simp [hfp, hu, hdc]
          | ok u => by_cases hdl : dlOk u fp <;> simp [hfp, hu, hdl, hdc]
        · cases hu : buildImageURL url c.Set c.CardNumber with
          | error e => left; simp [hfp, hu, hdc]
          | ok u =>
            right
            by_cases hdl : dlOk u fp <;> exact ⟨u, fp, by simp [hfp, hu, hdl, hdc]⟩
      · right; right
        refine ⟨by omega, ?_, ?_⟩
        · cases hu : buildImageURL url c.Set c.CardNumber with
          | error e => simp [hfp, hu, hdc]
          | ok u => by_cases hdl : dlOk u fp <;> simp [hfp, hu, hdl, hdc]
        · cases hu : buildImageURL url c.Set c.CardNumber with
          | error e => left; simp [hfp, hu, hdc]
          | ok u =>
            right
            by_cases hdl : dlOk u fp <;> exact ⟨u, fp, by simp [hfp, hu, hdl, hdc]⟩

/-- The trace/download-counter effect of one loop iteration (same shape as
`acquireImage_shape`; skipped rows add nothing). -/
theorem importStep_shape (dlOk : String → String → Bool) (dir url : String)
    (s : ImpState) (c : CardCSV) :
    ((importStep dlOk dir url s c).trace = s.trace ∧
     (importStep dlOk dir url s c).downloadCount = s.downloadCount) ∨
    (0 < s.downloadCount ∧
     (importStep dlOk dir url s c).downloadCount = s.downloadCount + 1 ∧
     ((importStep dlOk dir url s c).trace
        = s.trace ++ [Event.sleep imageDownloadInterval] ∨
      ∃ u2 p2, (importStep dlOk dir url s c).trace
        = s.trace ++ [Event.sleep imageDownloadInterval, Event.download u2 p2])) ∨
    (s.downloadCount = 0 ∧
     (importStep dlOk dir url s c).downloadCount = s.downloadCount + 1 ∧
     ((importStep dlOk dir url s c).trace = s.trace ∨
      ∃ u2 p2, (importStep dlOk dir url s c).trace
        = s.trace ++ [Event.download u2 p2])) := by
  cases herr : s.error with
  | some e => left; rw [importStep_frozen (by simp [herr])]; exact ⟨rfl, rfl⟩
  | none =>
    rcases importStep_cases dlOk dir url s c herr with
      ⟨_, hout⟩ | ⟨_, _, hout⟩ | ⟨_, _, _, hout⟩ | ⟨_, _, _, hout⟩
    · left; rw [hout]; exact ⟨rfl, rfl⟩
    · left; rw [hout]; exact ⟨rfl, rfl⟩
    · left; rw [hout]; exact ⟨rfl, rfl⟩
    · rw [hout]
      dsimp only
      rcases acquireImage_shape dlOk dir url c
          { s with seen := s.seen ++ [cardCSVToName c] } with
        ⟨h1, h2⟩ | ⟨h0, h2, h3⟩ | ⟨h0, h2, h3⟩
      · left; exact ⟨h1, h2⟩
      · right; left; exact ⟨h0, h2, h3⟩
      · right; right; exact ⟨h0, h2, h3⟩

/-- The rate-limit discipline of a trace: every download event that follows
an earlier download event is immediately preceded by a 100ms sleep. -/
def DlSpaced (tr : List Event) : Prop :=
  ∀ pre post (u p : String), tr = pre ++ Event.download u p :: post →
    (∃ u2 p2, Event.download u2 p2 ∈ pre) →
    pre.getLast? = some (Event.sleep imageDownloadInterval)

/-- The loop invariant behind the rate limit: the trace is well spaced, and
no download event exists before the first attempt. -/
def RateInv (s : ImpState) : Prop :=
  DlSpaced s.trace ∧ (s.downloadCount = 0 → ∀ u p, Event.download u p ∉ s.trace)

theorem nil_ne_append_cons {α : Type} (l r : List α) (x : α) :
    ([] : List α) ≠ l ++ x :: r := by
  intro h
  have hlen := congrArg List.length h
  simp only [List.length_nil, List.length_append, List.length_cons] at hlen
  omega

theorem importStep_rateInv (dlOk : String → String → Bool) (dir url : String)
    (s : ImpState) (c : CardCSV) (h : RateInv s) :
    RateInv (importStep dlOk dir url s c) := by
  obtain ⟨hs, hz⟩ := h
  rcases importStep_shape dlOk dir url s c with
    ⟨h1, h2⟩ | ⟨h0, h2, h3 | ⟨u2, p2, h3⟩⟩ | ⟨h0, h2, h3 | ⟨u2, p2, h3⟩⟩
  · exact ⟨by rw [h1]; exact hs, by rw [h1, h2]; exact hz⟩
  · refine ⟨?_, by rw [h2]; intro hcontra; omega⟩
    rw [h3]
    intro pre post u p hsplit hprev
    rcases trace_split hsplit with ⟨post2, hin⟩ | ⟨pre2, hp1, hp2⟩
    · exact hs pre post2 u p hin hprev
    · exfalso
      cases pre2 with
      | nil => simp at hp2
      | cons e pre3 =>
        simp only [List.cons_append, List.cons.injEq] at hp2
        exact nil_ne_append_cons pre3 post (Event.download u p) hp2.2
  · refine ⟨?_, by rw [h2]; intro hcontra; omega⟩
    rw [h3]
    intro pre post u p hsplit hprev
    rcases trace_split hsplit with ⟨post2, hin⟩ | ⟨pre2, hp1, hp2⟩
    · exact hs pre post2 u p hin hprev
    · cases pre2 with
      | nil => simp at hp2
      | cons e pre3 =>
        cases pre3 with
        | nil =>
          simp only [List.cons_append, List.nil_append, List.cons.injEq] at hp2
          rw [hp1, hp2.1]
          simp
        | cons e2 pre4 =>
          exfalso
          simp only [List.cons_append, List.cons.injEq] at hp2
          exact nil_ne_append_cons pre4 post (Event.download u p) hp2.2.2
  · exact ⟨by rw [h3]; exact hs, by rw [h2]; intro hcontra; omega⟩
  · refine ⟨?_, by rw [h2]; intro hcontra; omega⟩
    rw [h3]
    intro pre post u p hsplit hprev
    rcases trace_split hsplit with ⟨post2, hin⟩ | ⟨pre2, hp1, hp2⟩
    · exact hs pre post2 u p hin hprev
    · exfalso
      cases pre2 with
      | nil =>
        rw [List.nil_append] at hp2
        rw [List.append_nil] at hp1
        obtain ⟨u3, p3, hmem⟩ := hprev
        rw [hp1] at hmem
        exact hz h0 u3 p3 hmem
      | cons e pre3 =>
        simp only [List.cons_append, List.cons.injEq] at hp2
        exact nil_ne_append_cons pre3 post (Event.download u p) hp2.2

theorem importRows_rateInv (dlOk : String → String → Bool) (dir url : String) :
    ∀ (cards : List CardCSV) (s : ImpState), RateInv s →
    RateInv (importRows dlOk dir url s cards) := by
  intro cards
  induction cards with
  | nil => intro s h; exact h
  | cons c0 cs ih =>
    intro s h
    exact ih _ (importStep_rateInv dlOk dir url s c0 h)

/-- When the image file is already on disk the block performs no wait, no
download attempt, and reuses the path. -/
theorem acquireImage_cache_hit (dlOk : String → String → Bool) (dir url : String)
    (c : CardCSV) (s : ImpState) (fp : String)
    (hb : buildImageFilePath dir c.Set c.CardNumber = Except.ok fp)
    (hfp : fp ∈ s.disk) :
    acquireImage dlOk dir url c s = (fp, s) := by
  unfold acquireImage
  rw [hb]
  simp [hfp]

/-- C6: in every `importCards` call, any download event that follows an
earlier download event in the same call is immediately preceded by the fixed
100ms sleep; and a row whose image is already on disk produces no event at
all — neither wait nor download — and does not consume rate-limit budget. -/
theorem import_download_rate_limited (dlOk : String → String → Bool)
    (imagesDir imageBaseURL : String) (store : List CardRow) (disk : List String)
    (input : List Char) :
    DlSpaced (importCards dlOk imagesDir imageBaseURL store disk input).trace ∧
    (∀ (s : ImpState) (c : CardCSV) (fp : String), s.error = none →
      cardCSVToName c ∉ s.seen → cardCSVToName c ∉ storeNames s.store →
      cardCSVToName c ≠ "" →
      buildImageFilePath imagesDir c.Set c.CardNumber = Except.ok fp →
      fp ∈ s.disk →
      (importStep dlOk imagesDir imageBaseURL s c).trace = s.trace ∧
      (importStep dlOk imagesDir imageBaseURL s c).downloadCount = s.downloadCount) := by
  constructor
  · have hinit : RateInv (initState store disk) := by
      constructor
      · intro pre post u p hsplit hprev
        exact absurd hsplit (nil_ne_append_cons pre post (Event.download u p))
      · intro _ u p hmem
        cases hmem
    unfold importCards
    cases hp : parseCardsCSV input with
    | error e =>
      intro pre post u p hsplit hprev
      exact absurd hsplit (nil_ne_append_cons pre post (Event.download u p))
    | ok csvCards =>
      by_cases hlen : csvCards.length = 0
      · simp only [hlen, if_true]
        intro pre post u p hsplit hprev
        exact absurd hsplit (nil_ne_append_cons pre post (Event.download u p))
      · simp only [if_neg hlen]
        exact (importRows_rateInv dlOk imagesDir imageBaseURL csvCards
          (initState store disk) hinit).1
  · intro s c fp herr hseen hmem hname hb hfp
    rcases importStep_cases dlOk imagesDir imageBaseURL s c herr with
      ⟨hin, _⟩ | ⟨_, hn, _⟩ | ⟨_, _, hm, _⟩ | ⟨_, _, _, hout⟩
    · exact absurd hin hseen
    · exact absurd hn hname
    · exact absurd hm hmem
    · rw [hout]
      dsimp only
      rw [acquireImage_cache_hit dlOk imagesDir imageBaseURL c
        { s with seen := s.seen ++ [cardCSVToName c] } fp hb hfp]
      exact ⟨rfl, rfl⟩

/-- The input's header parses but is malformed: field count different from
13, or first field different from the literal `"Set"`. -/
def malformedHeader (input : List Char) : Bool :=
  match readRecord (stripBOM input) 0 with
  | some (Except.ok h, _, _) =>
    (h.length != csvColumnCount) || !(h.get? 0 == some csvHeaderSet)
  | _ => false

/-- The input's header parses and is well formed, but reading the data rows
fails (wrong field count, bad quoting). -/
def hasMalformedRow (input : List Char) : Bool :=
  match readRecord (stripBOM input) 0 with
  | some (Except.ok h, rest, fpr) =>
    ((h.length == csvColumnCount) && (h.get? 0 == some csvHeaderSet)) &&
    (match parseRecords rest fpr [] with
     | Except.error (ParseErr.recordRead _) => true
     | _ => false)
  | _ => false

/-- C3: an input with a malformed header or at least one malformed data row
is rejected with a 400 `MalformedInput` error before any insert: the store
is unchanged, no event happens, nothing was inserted. -/
theorem import_malformed_input_rejected (dlOk : String → String → Bool)
    (imagesDir imageBaseURL : String) (store : List CardRow) (disk : List String)
    (input : List Char)
    (h : malformedHeader input = true ∨ hasMalformedRow input = true) :
    (∃ e, (importCards dlOk imagesDir imageBaseURL store disk input).error
        = some ⟨400, ImportErrKind.malformedInput e⟩) ∧
    (importCards dlOk imagesDir imageBaseURL store disk input).store = store ∧
    (importCards dlOk imagesDir imageBaseURL store disk input).trace = [] ∧
    (importCards dlOk imagesDir imageBaseURL store disk input).inserted = 0 := by
  have hparse : ∃ e, parseCardsCSV input = Except.error e := by
    unfold parseCardsCSV
    dsimp only
    cases hr : readRecord (stripBOM input) 0 with
    | none => exact ⟨_, rfl⟩
    | some trip =>
      obtain ⟨res, rest, fpr⟩ := trip
      cases res with
      | error e => exact ⟨_, rfl⟩
      | ok hd =>
        dsimp only
        rcases h with h | h
        · unfold malformedHeader at h
          rw [hr] at h
          dsimp only at h
          simp only [Bool.or_eq_true, bne_iff_ne, Bool.not_eq_true', beq_eq_false_iff_ne]
            at h
          rw [if_pos h]
          exact ⟨_, rfl⟩
        · unfold hasMalformedRow at h
          rw [hr] at h
          dsimp only at h
          simp only [Bool.and_eq_true, beq_iff_eq] at h
          obtain ⟨⟨hl, hg⟩, hpr⟩ := h
          rw [if_neg (by push_neg; exact ⟨hl, hg⟩)]
          cases hpe : parseRecords rest fpr [] with
          | ok cs => rw [hpe] at hpr; simp at hpr
          | error e =>
            cases e with
            | recordRead e2 => exact ⟨_, rfl⟩
            | headerEOF => rw [hpe] at hpr; simp at hpr
            | headerRead e2 => rw [hpe] at hpr; simp at hpr
            | headerFormat => rw [hpe] at hpr; simp at hpr
            | panic => rw [hpe] at hpr; simp at hpr
  obtain ⟨e, hpe⟩ := hparse
  unfold importCards
  rw [hpe]
  exact ⟨⟨e, rfl⟩, rfl, rfl, rfl⟩

/-- C8: an input that parses to a valid 13-column header with zero data rows
is rejected with the distinct `EmptyInput` condition (different from every
`MalformedInput` error) and nothing is inserted: a header-only CSV is never
silently accepted. -/
theorem import_empty_input_rejected (dlOk : String → String → Bool)
    (imagesDir imageBaseURL : String) (store : List CardRow) (disk : List String)
    (input : List Char) (h : parseCardsCSV input = Except.ok []) :
    (importCards dlOk imagesDir imageBaseURL store disk input).error
      = some ⟨400, ImportErrKind.emptyInput⟩ ∧
    (importCards dlOk imagesDir imageBaseURL store disk input).store = store ∧
    (importCards dlOk imagesDir imageBaseURL store disk input).inserted = 0 ∧
    (importCards dlOk imagesDir imageBaseURL store disk input).trace = [] ∧
    (∀ e, (⟨400, ImportErrKind.emptyInput⟩ : ImportError)
      ≠ ⟨400, ImportErrKind.malformedInput e⟩) := by
  unfold importCards
  rw [h]
  refine ⟨by simp [initState], by simp [initState], by simp [initState],
    by simp [initState], ?_⟩
  intro e hcontra
  cases hcontra

/-- A record with exactly 13 fields always converts: all positional
accesses `record[0] … record[12]` are in bounds. -/
theorem toCardCSV_of_length (record : List String) (h : record.length = 13) :
    ∃ c, toCardCSV record = some c := by
  rcases record with _ | ⟨f0, record⟩; · simp at h
  rcases record with _ | ⟨f1, record⟩; · simp at h
  rcases record with _ | ⟨f2, record⟩; · simp at h
  rcases record with _ | ⟨f3, record⟩; · simp at h
  rcases record with _ | ⟨f4, record⟩; · simp at h
  rcases record with _ | ⟨f5, record⟩; · simp at h
  rcases record with _ | ⟨f6, record⟩; · simp at h
  rcases record with _ | ⟨f7, record⟩; · simp at h
  rcases record with _ | ⟨f8, record⟩; · simp at h
  rcases record with _ | ⟨f9, record⟩; · simp at h
  rcases record with _ | ⟨f10, record⟩; · simp at h
  rcases record with _ | ⟨f11, record⟩; · simp at h
  rcases record with _ | ⟨f12, record⟩; · simp at h
  exact ⟨_, rfl⟩

/-- Reading the first record (`FieldsPerRecord = 0`) fixes the expected
field count to that record's length. -/
theorem readRecord_zero_fpr {s rest : List Char} {n' : Nat} {fields : List String}
    (h : readRecord s 0 = some (Except.ok fields, rest, n')) :
    n' = fields.length := by
  unfold readRecord at h
  cases hskip : skipToContent s with
  | none => rw [hskip] at h; cases h
  | some p =>
    obtain ⟨line, rest1⟩ := p
    rw [hskip] at h
    dsimp only at h
    cases hpf2 : parseFields line rest1 [] with
    | mk res rest2 =>
      rw [hpf2] at h
      cases res with
      | error e => dsimp only at h; simp at h
      | ok fields2 =>
        dsimp only at h
        rw [if_neg (by omega)] at h
        simp only [Option.some.injEq, Prod.mk.injEq, Except.ok.injEq] at h
        obtain ⟨hf, _, hn2⟩ := h
        rw [← hn2, hf]

/-- With the expected field count fixed at 13, the data-row loop can never
hit an out-of-range positional access. -/
theorem parseRecords_no_panic (s : List Char) (fpr : Nat) (acc : List CardCSV)
    (hf : fpr = csvColumnCount) :
    parseRecords s fpr acc ≠ Except.error ParseErr.panic := by
  revert hf
  induction s, fpr, acc using parseRecords.induct with
  | case1 s2 fpr2 acc2 hr =>
    intro hf
    rw [parseRecords, hr]
    simp
  | case2 s2 fpr2 acc2 e x1 x2 hr =>
    intro hf
    rw [parseRecords, hr]
    simp
  | case3 s2 fpr2 acc2 fields rest fpr3 hr htoc =>
    intro hf
    exfalso
    have hpos : 0 < fpr2 := by rw [hf]; decide
    obtain ⟨hlen, _⟩ := readRecord_ok_length hpos hr
    obtain ⟨c, hc⟩ := toCardCSV_of_length fields (by rw [hlen, hf]; rfl)
    rw [hc] at htoc
    cases htoc
  | case4 s2 fpr2 acc2 fields rest fpr3 hr c htoc ih =>
    intro hf
    rw [parseRecords, hr]
    dsimp only
    rw [htoc]
    have hpos : 0 < fpr2 := by rw [hf]; decide
    obtain ⟨_, hfpr⟩ := readRecord_ok_length hpos hr
    exact ih (by rw [hfpr, hf])

/-- Recognizer for the (unreachable) out-of-range panic outcome. -/
def isPanic (r : Except ParseErr (List CardCSV)) : Bool :=
  match r with
  | Except.error ParseErr.panic => true
  | _ => false

/-- C10: parsing is total and in-bounds: for every byte-stream input the
parser terminates with an ordinary result — the positional accesses
`record[0] … record[12]` never go out of range, because once the header has
fixed the field count at 13 the reader rejects any record with a different
field count. -/
theorem parseCardsCSV_never_panics :
    (∀ input : List Char, isPanic (parseCardsCSV input) = false) ∧
    (∀ (s rest : List Char) (n n' : Nat) (rec : List String), 0 < n →
      readRecord s n = some (Except.ok rec, rest, n') → rec.length = n) := by
  constructor
  · intro input
    unfold parseCardsCSV
    dsimp only
    cases hr : readRecord (stripBOM input) 0 with
    | none => rfl
    | some trip =>
      obtain ⟨res, rest, fpr⟩ := trip
      cases res with
      | error e => rfl
      | ok hd =>
        dsimp only
        by_cases hcond : hd.length ≠ csvColumnCount ∨ hd.get? 0 ≠ some csvHeaderSet
        · rw [if_pos hcond]; rfl
        · rw [if_neg hcond]
          push_neg at hcond
          have hfpr : fpr = csvColumnCount := by
            rw [readRecord_zero_fpr hr, hcond.1]
          cases hpr : parseRecords rest fpr [] with
          | ok cs => simp [isPanic]
          | error e =>
            cases e with
            | panic => exact absurd hpr (parseRecords_no_panic rest fpr [] hfpr)
            | headerEOF => simp [isPanic]
            | headerRead e2 => simp [isPanic]
            | headerFormat => simp [isPanic]
            | recordRead e2 => simp [isPanic]
  · intro s rest n n' rec hn hr
    exact (readRecord_ok_length hn hr).1

/-! ## Schema migration (src/unnamed/part_004) -/

/-- A SQLite value as stored in a column. -/
inductive SQLValue where
  | null
  | int (i : Int)
  | text (s : String)
deriving DecidableEq, Repr

/-- A column of a table: its name, its textual definition as passed to the
DDL, and the value existing rows take when the column is added
(`ALTER TABLE … ADD COLUMN` backfills the declared default). -/
structure ColumnDef where
  name : String
  definition : String
  dflt : SQLValue
deriving DecidableEq, Repr

/-- A table: columns and rows (each row aligned with `cols`). -/
structure Table where
  cols : List ColumnDef
  rows : List (List SQLValue)
deriving DecidableEq, Repr

/-- The columns created by the `CREATE TABLE IF NOT EXISTS cards` statement
of `RunMigrations`. -/
def cardsBaseCols : List ColumnDef :=
  [⟨"id", "INTEGER PRIMARY KEY AUTOINCREMENT", SQLValue.null⟩,
   ⟨"name", "TEXT NOT NULL", SQLValue.null⟩,
   ⟨"image", "TEXT", SQLValue.null⟩,
   ⟨"owned", "INTEGER NOT NULL DEFAULT 0", SQLValue.int 0⟩]

/-- `CREATE TABLE IF NOT EXISTS cards (...)`: creates the empty table only
when absent, otherwise leaves the existing table and its data untouched. -/
def createCardsTableIfNotExists : Option Table → Table
  | none => ⟨cardsBaseCols, []⟩
  | some t => t

/-- `PRAGMA table_info`: the names of the table's columns (the Go code scans
all six info fields but compares only the name). -/
def pragmaTableInfo (t : Table) : List String := t.cols.map (·.name)

/-- Engine semantics of `ALTER TABLE … ADD COLUMN`: the column is appended
and every existing row is extended with the column's default value. -/
def sqliteAddColumn (t : Table) (c : ColumnDef) : Table :=
  ⟨t.cols ++ [c], t.rows.map (· ++ [c.dflt])⟩

/-- Model of `Database.addColumnIfNotExists` (src/unnamed/part_004): after
validating its arguments it checks column existence via `PRAGMA table_info`
and issues the ALTER only when the column is missing — deliberately not
relying on `ADD COLUMN IF NOT EXISTS` syntax.  `dflt` is the engine's
reading of the DEFAULT clause of `columnDefinition`. -/
def addColumnIfNotExists (t : Table) (tableName columnName columnDefinition : String)
    (dflt : SQLValue) : Except String Table :=
  if tableName = "" then Except.error "table name must not be empty"
  else if columnName = "" then Except.error "column name must not be empty"
  else if columnDefinition = "" then Except.error "column definition must not be empty"
  else if columnName ∈ pragmaTableInfo t then Except.ok t
  else Except.ok (sqliteAddColumn t ⟨columnName, columnDefinition, dflt⟩)

/-- The mainboard column added by the migration: `INTEGER NOT NULL DEFAULT 1`,
so rows predating the column read back as mainboard (true). -/
def mainboardCol : ColumnDef := ⟨"mainboard", "INTEGER NOT NULL DEFAULT 1", SQLValue.int 1⟩

/-- Model of `Database.RunMigrations` (src/unnamed/part_004). -/
def RunMigrations (s : Option Table) : Except String Table :=
  let t := createCardsTableIfNotExists s
  addColumnIfNotExists t "cards" "mainboard" "INTEGER NOT NULL DEFAULT 1" (SQLValue.int 1)

/-- C4: the migration always succeeds and is idempotent — a second (and any
further) run returns the very same schema and data; an existing table is
never re-created: its rows and values are preserved exactly, and the
mainboard column (NOT NULL DEFAULT 1, read back as true by legacy rows) is
added only when the `PRAGMA table_info` introspection shows it missing. -/
theorem runMigrations_idempotent_preserves_rows :
    (∀ s : Option Table, ∃ t, RunMigrations s = Except.ok t ∧
      RunMigrations (some t) = Except.ok t) ∧
    (∀ t0 t : Table, RunMigrations (some t0) = Except.ok t →
      (("mainboard" ∈ pragmaTableInfo t0 ∧ t = t0) ∨
       ("mainboard" ∉ pragmaTableInfo t0 ∧ t.cols = t0.cols ++ [mainboardCol] ∧
        t.rows = t0.rows.map (· ++ [SQLValue.int 1])))) ∧
    RunMigrations none = Except.ok ⟨cardsBaseCols ++ [mainboardCol], []⟩ := by
  have hstep : ∀ t0 : Table, RunMigrations (some t0) =
      (if "mainboard" ∈ pragmaTableInfo t0 then Except.ok t0
       else Except.ok (sqliteAddColumn t0 mainboardCol)) := by
    intro t0
    unfold RunMigrations createCardsTableIfNotExists addColumnIfNotExists
    simp [mainboardCol]
  refine ⟨?_, ?_, ?_⟩
  · intro s
    cases s with
    | none =>
      refine ⟨⟨cardsBaseCols ++ [mainboardCol], []⟩, ?_, ?_⟩
      · unfold RunMigrations createCardsTableIfNotExists addColumnIfNotExists
        simp [pragmaTableInfo, cardsBaseCols, sqliteAddColumn, mainboardCol]
      · rw [hstep]
        rw [if_pos (by simp [pragmaTableInfo, cardsBaseCols, mainboardCol])]
    | some t0 =>
      by_cases hmb : "mainboard" ∈ pragmaTableInfo t0
      · refine ⟨t0, ?_, ?_⟩ <;> rw [hstep, if_pos hmb]
      · refine ⟨sqliteAddColumn t0 mainboardCol, ?_, ?_⟩
        · rw [hstep t0, if_neg hmb]
        · rw [hstep, if_pos ?_]
          simp [pragmaTableInfo, sqliteAddColumn, mainboardCol]
  · intro t0 t h
    rw [hstep] at h
    by_cases hmb : "mainboard" ∈ pragmaTableInfo t0
    · rw [if_pos hmb] at h
      cases h
      exact Or.inl ⟨hmb, rfl⟩
    · rw [if_neg hmb] at h
      cases h
      exact Or.inr ⟨hmb, rfl, rfl⟩
  · unfold RunMigrations createCardsTableIfNotExists addColumnIfNotExists
    simp [pragmaTableInfo, cardsBaseCols, sqliteAddColumn, mainboardCol]

/-! ## Wishlist projection (src/unnamed/part_004) -/

/-- `MainboardMinimumOwned` (src/unnamed/part_004): copies wanted of a
mainboard card. -/
def MainboardMinimumOwned : Nat := 6

/-- `NonMainboardMinimumOwned` (src/unnamed/part_004): copies wanted of a
non-mainboard card. -/
def NonMainboardMinimumOwned : Nat := 3

/-- The WHERE clause of `GetWishlistCards`:
`(mainboard = 1 AND owned < 6) OR (mainboard = 0 AND owned < 3)`. -/
def wishlistPred (c : CardRow) : Bool :=
  (c.mainboard && decide (c.owned < MainboardMinimumOwned)) ||
  (!c.mainboard && decide (c.owned < NonMainboardMinimumOwned))

/-- ASCII-case-insensitive substring match, modelling
`name LIKE '%' + query + '%' COLLATE NOCASE` (SQLite NOCASE folds ASCII
only; LIKE wildcard characters inside the query are not modelled). -/
def likeMatch (query name : String) : Bool :=
  decide (List.IsInfix (query.data.map Char.toLower) (name.data.map Char.toLower))

/-- Model of `Database.GetWishlistCards` (src/unnamed/part_004): the rows
satisfying the threshold predicate, optionally restricted by the
case-insensitive name match; an empty query applies no name filter, and an
empty result is an ordinary value, never an error. -/
def GetWishlistCards (store : List CardRow) (query : String) : List CardRow :=
  if query = "" then store.filter wishlistPred
  else store.filter (fun c => wishlistPred c && likeMatch query c.name)

/-- The ownership threshold of a card. -/
def threshold (mainboard : Bool) : Nat :=
  if mainboard then MainboardMinimumOwned else NonMainboardMinimumOwned

/-- Modelled from the spec: the wishlist deficit (`WishlistCard.Deficit` is
declared in src/models/models.go but the handler computing it is not under
src/).  Spec section 4.4: `deficit = threshold − owned`, computed per
matching record at query time. -/
def deficit (c : CardRow) : Nat := threshold c.mainboard - c.owned

/-- C5: the wishlist returns exactly the stored cards satisfying
(mainboard ∧ owned < 6) ∨ (¬mainboard ∧ owned < 3), optionally restricted by
the case-insensitive name filter (none when the query is empty); hence no
returned card meets or exceeds its threshold and every entry has
deficit = threshold − owned ≥ 1. -/
theorem wishlist_below_threshold (store : List CardRow) (query : String) :
    (∀ c ∈ GetWishlistCards store query,
      c.owned < threshold c.mainboard ∧ 1 ≤ deficit c ∧
      deficit c = threshold c.mainboard - c.owned) ∧
    (∀ c : CardRow, c ∈ GetWishlistCards store query ↔
      c ∈ store ∧ wishlistPred c = true ∧
        (query = "" ∨ likeMatch query c.name = true)) ∧
    GetWishlistCards store "" = store.filter wishlistPred := by
  have hpred : ∀ c : CardRow, wishlistPred c = true → c.owned < threshold c.mainboard := by
    intro c hc
    unfold wishlistPred at hc
    unfold threshold
    cases hmb : c.mainboard <;> rw [hmb] at hc <;> simp at hc <;> simp [hc]
  refine ⟨?_, ?_, by simp [GetWishlistCards]⟩
  · intro c hc
    have hmem : wishlistPred c = true := by
      unfold GetWishlistCards at hc
      by_cases hq : query = ""
      · rw [if_pos hq] at hc
        exact (List.mem_filter.mp hc).2
      · rw [if_neg hq] at hc
        have hand := (List.mem_filter.mp hc).2
        simp only [Bool.and_eq_true] at hand
        exact hand.1
    have hlt := hpred c hmem
    refine ⟨hlt, ?_, rfl⟩
    unfold deficit
    omega
  · intro c
    unfold GetWishlistCards
    by_cases hq : query = ""
    · rw [if_pos hq]
      simp [List.mem_filter, hq]
    · rw [if_neg hq]
      simp only [List.mem_filter, Bool.and_eq_true]
      constructor
      · rintro ⟨h1, h2, h3⟩
        exact ⟨h1, h2, Or.inr h3⟩
      · rintro ⟨h1, h2, h3 | h3⟩
        · exact absurd h3 hq
        · exact ⟨h1, h2, h3⟩

/-! ## Fuelled mirror of the csv reader

Structurally recursive copies of the reader functions, fuelled by an
explicit `Nat`, proven equal to the originals whenever the fuel exceeds the
recursion measure.  They exist so that concrete runs of the parser reduce in
the kernel (`decide`/`rfl`); all theorems are about the originals. -/

mutual

def parseFieldsF : Nat → List Char → List Char → List String →
    Except ReadErr (List String) × List Char
  | 0, _, rest, _ => (Except.error ReadErr.quote, rest)
  | fuel+1, line, rest, acc =>
    if line.head? = some '"' then quotedFieldF fuel line.tail rest [] acc
    else
      match line.dropWhile (· != ',') with
      | [] =>
        let field := line.take (line.length - lengthNL line)
        if field.contains '"' then (Except.error ReadErr.bareQuote, rest)
        else (Except.ok (acc ++ [field.asString]), rest)
      | _ :: after =>
        let field := line.takeWhile (· != ',')
        if field.contains '"' then (Except.error ReadErr.bareQuote, rest)
        else parseFieldsF fuel after rest (acc ++ [field.asString])

def quotedFieldF : Nat → List Char → List Char → List Char → List String →
    Except ReadErr (List String) × List Char
  | 0, _, rest, _, _ => (Except.error ReadErr.quote, rest)
  | fuel+1, cur, rest, content, acc =>
    let dw := cur.dropWhile (· != '"')
    if dw = [] then
      if cur = [] then (Except.error ReadErr.quote, rest)
      else
        match readLine rest with
        | none => (Except.error ReadErr.quote, rest)
        | some (l, rest2) => quotedFieldF fuel l rest2 (content ++ cur) acc
    else
      let after := dw.tail
      let content2 := content ++ cur.takeWhile (· != '"')
      if after.head? = some '"' then quotedFieldF fuel after.tail rest (content2 ++ ['"']) acc
      else if after.head? = some ',' then
        parseFieldsF fuel after.tail rest (acc ++ [content2.asString])
      else if after.length = lengthNL after then (Except.ok (acc ++ [content2.asString]), rest)
      else (Except.error ReadErr.quote, rest)

end

def skipToContentF : Nat → List Char → Option (List Char × List Char)
  | 0, _ => none
  | fuel+1, s =>
    match readLine s with
    | none => none
    | some (line, rest) =>
      if line.length = lengthNL line then skipToContentF fuel rest
      else some (line, rest)

theorem skipToContentF_eq : ∀ (fuel : Nat) (s : List Char), s.length < fuel →
    skipToContentF fuel s = skipToContent s := by
  intro fuel
  induction fuel with
  | zero => intro s h; omega
  | succ k ih =>
    intro s h
    rw [skipToContent]
    simp only [skipToContentF]
    cases hr : readLine s with
    | none => rfl
    | some p =>
      obtain ⟨line, rest⟩ := p
      dsimp only
      by_cases hskip : line.length = lengthNL line
      · rw [if_pos hskip, if_pos hskip]
        exact ih rest (by have := (readLine_length hr).2; omega)
      · rw [if_neg hskip, if_neg hskip]

theorem parseFieldsF_eq_full :
    (∀ line rest acc, ∀ fuel, line.length + rest.length < fuel →
      parseFieldsF fuel line rest acc = parseFields line rest acc)
    ∧ (∀ cur rest content acc, ∀ fuel, cur.length + rest.length < fuel →
      quotedFieldF fuel cur rest content acc = quotedField cur rest content acc) := by
  apply parseFields.mutual_induct
    (fun line rest acc => ∀ fuel, line.length + rest.length < fuel →
      parseFieldsF fuel line rest acc = parseFields line rest acc)
    (fun cur rest content acc => ∀ fuel, cur.length + rest.length < fuel →
      quotedFieldF fuel cur rest content acc = quotedField cur rest content acc)
  · intro line rest acc hq ih fuel hf
    cases fuel with
    | zero => omega
    | succ k =>
      simp only [parseFieldsF, if_pos hq]
      rw [parseFields, dif_pos hq]
      have hline : line ≠ [] := by intro hnil; rw [hnil] at hq; cases hq
      refine ih k ?_
      have hpos : 0 < line.length := List.length_pos.mpr hline
      simp only [List.length_tail]
      omega
  · intro line rest acc hq hd field hcont fuel hf
    cases fuel with
    | zero => omega
    | succ k =>
      simp only [parseFieldsF, if_neg hq]
      conv_lhs => rw [hd]
      dsimp only
      rw [if_pos hcont]
      rw [parseFields, dif_neg hq]
      split
      next => dsimp only; rw [if_pos hcont]
      next head after heq => rw [hd] at heq; cases heq
  · intro line rest acc hq hd field hcont fuel hf
    cases fuel with
    | zero => omega
    | succ k =>
      simp only [parseFieldsF, if_neg hq]
      conv_lhs => rw [hd]
      dsimp only
      rw [if_neg hcont]
      rw [parseFields, dif_neg hq]
      split
      next => dsimp only; rw [if_neg hcont]
      next head after heq => rw [hd] at heq; cases heq
  · intro line rest acc hq head after hd field hcont fuel hf
    cases fuel with
    | zero => omega
    | succ k =>
      simp only [parseFieldsF, if_neg hq]
      conv_lhs => rw [hd]
      dsimp only
      rw [if_pos hcont]
      rw [parseFields, dif_neg hq]
      split
      next heq => rw [hd] at heq; cases heq
      next head2 after2 heq =>
        rw [hd] at heq
        cases heq
        dsimp only
        rw [if_pos hcont]
  · intro line rest acc hq head after hd field hcont ih fuel hf
    cases fuel with
    | zero => omega
    | succ k =>
      simp only [parseFieldsF, if_neg hq]
      conv_lhs => rw [hd]
      dsimp only
      rw [if_neg hcont]
      rw [parseFields, dif_neg hq]
      have hlen : after.length + 1 ≤ line.length := by
        have := dropWhile_length_le (· != ',') line
        rw [hd] at this
        simp only [List.length_cons] at this
        omega
      split
      next heq => rw [hd] at heq; cases heq
      next head2 after2 heq =>
        rw [hd] at heq
        cases heq
        dsimp only
        rw [if_neg hcont]
        exact ih k (by omega)
  · intro rest content acc dw hdw fuel hf
    cases fuel with
    | zero => omega
    | succ k =>
      simp only [quotedFieldF]
      rw [quotedField]
      simp
  · intro cur rest content acc dw hdw hc hr fuel hf
    cases fuel with
    | zero => omega
    | succ k =>
      simp only [quotedFieldF]
      rw [quotedField]
      dsimp only
      rw [if_pos hdw, dif_pos hdw, if_neg hc, dif_neg hc]
      conv_lhs => rw [hr]
      dsimp only
      split
      next => rfl
      next l r hr2 => rw [hr] at hr2; cases hr2
  · intro cur rest content acc dw hdw hc l r hr ih fuel hf
    cases fuel with
    | zero => omega
    | succ k =>
      simp only [quotedFieldF]
      rw [quotedField]
      dsimp only
      rw [if_pos hdw, dif_pos hdw, if_neg hc, dif_neg hc]
      conv_lhs => rw [hr]
      dsimp only
      split
      next hr2 => rw [hr] at hr2; cases hr2
      next l2 r2 hr2 =>
        rw [hr] at hr2
        cases hr2
        refine ih k ?_
        have h1 := (readLine_length hr).1
        have h2 := (readLine_length hr).2
        have hpos : 0 < cur.length := List.length_pos.mpr hc
        omega
  · intro cur rest content acc dw hdw after content2 h2 ih fuel hf
    cases fuel with
    | zero => omega
    | succ k =>
      simp only [quotedFieldF]
      rw [quotedField]
      dsimp only
      rw [if_neg hdw, dif_neg hdw, if_pos h2, dif_pos h2]
      refine ih k ?_
      have hle : dw.length ≤ cur.length := dropWhile_length_le (· != '"') cur
      have hdpos : 0 < dw.length := List.length_pos.mpr hdw
      have hne : after ≠ [] := by intro hnil; rw [hnil] at h2; cases h2
      have hpos : 0 < after.length := List.length_pos.mpr hne
      have hafter : after.length = dw.length - 1 := List.length_tail dw
      have htail : after.tail.length = after.length - 1 := List.length_tail after
      omega
  · intro cur rest content acc dw hdw after content2 h2 h3 ih fuel hf
    cases fuel with
    | zero => omega
    | succ k =>
      simp only [quotedFieldF]
      rw [quotedField]
      dsimp only
      rw [if_neg hdw, dif_neg hdw, if_neg h2, dif_neg h2, if_pos h3, dif_pos h3]
      refine ih k ?_
      have hle : dw.length ≤ cur.length := dropWhile_length_le (· != '"') cur
      have hdpos : 0 < dw.length := List.length_pos.mpr hdw
      have hne : after ≠ [] := by intro hnil; rw [hnil] at h3; cases h3
      have hpos : 0 < after.length := List.length_pos.mpr hne
      have hafter : after.length = dw.length - 1 := List.length_tail dw
      have htail : after.tail.length = after.length - 1 := List.length_tail after
      omega
  · intro cur rest content acc dw hdw after h2 h3 hnl fuel hf
    cases fuel with
    | zero => omega
    | succ k =>
      simp only [quotedFieldF]
      rw [quotedField]
      dsimp only
      rw [if_neg hdw, dif_neg hdw, if_neg h2, dif_neg h2, if_neg h3, dif_neg h3,
        if_pos hnl]
  · intro cur rest content acc dw hdw after h2 h3 hnl fuel hf
    cases fuel with
    | zero => omega
    | succ k =>
      simp only [quotedFieldF]
      rw [quotedField]
      dsimp only
      rw [if_neg hdw, dif_neg hdw, if_neg h2, dif_neg h2, if_neg h3, dif_neg h3,
        if_neg hnl]

def readRecordF (s : List Char) (fieldsPerRecord : Nat) :
    Option ((Except ReadErr (List String)) × List Char × Nat) :=
  match skipToContentF (s.length + 1) s with
  | none => none
  | some (line, rest) =>
    match parseFieldsF (line.length + rest.length + 1) line rest [] with
    | (Except.error e, rest2) => some (Except.error e, rest2, fieldsPerRecord)
    | (Except.ok fields, rest2) =>
      if 0 < fieldsPerRecord then
        if fields.length ≠ fieldsPerRecord then
          some (Except.error ReadErr.fieldCount, rest2, fieldsPerRecord)
        else some (Except.ok fields, rest2, fieldsPerRecord)
      else some (Except.ok fields, rest2, fields.length)

theorem readRecordF_eq (s : List Char) (n : Nat) : readRecordF s n = readRecord s n := by
  unfold readRecordF readRecord
  rw [skipToContentF_eq (s.length + 1) s (by omega)]
  cases hskip : skipToContent s with
  | none => rfl
  | some p =>
    obtain ⟨line, rest⟩ := p
    dsimp only
    rw [parseFieldsF_eq_full.1 line rest [] (line.length + rest.length + 1) (by omega)]

def parseRecordsF : Nat → List Char → Nat → List CardCSV → Except ParseErr (List CardCSV)
  | 0, _, _, acc => Except.ok acc
  | fuel+1, s, fpr, acc =>
    match readRecordF s fpr with
    | none => Except.ok acc
    | some (Except.error e, _, _) => Except.error (ParseErr.recordRead e)
    | some (Except.ok fields, rest, fpr2) =>
      match toCardCSV fields with
      | none => Except.error ParseErr.panic
      | some c => parseRecordsF fuel rest fpr2 (acc ++ [c])

theorem parseRecordsF_eq : ∀ (fuel : Nat) (s : List Char) (fpr : Nat) (acc : List CardCSV),
    s.length < fuel → parseRecordsF fuel s fpr acc = parseRecords s fpr acc := by
  intro fuel
  induction fuel with
  | zero => intro s fpr acc h; omega
  | succ k ih =>
    intro s fpr acc h
    rw [parseRecords]
    simp only [parseRecordsF, readRecordF_eq]
    cases hr : readRecord s fpr with
    | none => rfl
    | some trip =>
      obtain ⟨res, rest, fpr2⟩ := trip
      cases res with
      | error e => rfl
      | ok fields =>
        dsimp only
        cases htc : toCardCSV fields with
        | none => rfl
        | some c =>
          dsimp only
          exact ih rest fpr2 (acc ++ [c]) (by have := readRecord_rest_lt hr; omega)

/-- Fuelled mirror of `parseCardsCSV`, equal to it on every input; used to
evaluate the parser on concrete inputs in the kernel. -/
def parseCardsCSVF (input : List Char) : Except ParseErr (List CardCSV) :=
  let s := stripBOM input
  match readRecordF s 0 with
  | none => Except.error ParseErr.headerEOF
  | some (Except.error e, _, _) => Except.error (ParseErr.headerRead e)
  | some (Except.ok header, rest, fpr) =>
    if header.length ≠ csvColumnCount ∨ header.get? 0 ≠ some csvHeaderSet then
      Except.error ParseErr.headerFormat
    else parseRecordsF (rest.length + 1) rest fpr []

theorem parseCardsCSVF_eq (input : List Char) : parseCardsCSVF input = parseCardsCSV input := by
  unfold parseCardsCSVF parseCardsCSV
  dsimp only
  rw [readRecordF_eq]
  cases hr : readRecord (stripBOM input) 0 with
  | none => rfl
  | some trip =>
    obtain ⟨res, rest, fpr⟩ := trip
    cases res with
    | error e => rfl
    | ok header =>
      dsimp only
      by_cases hcond : header.length ≠ csvColumnCount ∨ header.get? 0 ≠ some csvHeaderSet
      · rw [if_pos hcond, if_pos hcond]
      · rw [if_neg hcond, if_neg hcond]
        exact parseRecordsF_eq (rest.length + 1) rest fpr [] (by omega)

/-! ## Concrete witnesses -/

/-- A sample import row. -/
def sampleRow : CardCSV :=
  ⟨"LAW", "001", "Chewbacca", "Hero of Kessel", "Character", "", "", "", "", "", "", "0", "0"⟩

/-- A sample leader row whose image file is already on disk. -/
def leaderRow : CardCSV :=
  ⟨"S", "1", "Luke", "", "Leader", "", "", "", "", "", "", "0", "0"⟩

theorem import_duplicate_first_occurrence_wins_witness :
    (cardCSVToName sampleRow ∈ [sampleRow].map cardCSVToName) ∧
    countName (cardCSVToName sampleRow)
      (importRows (fun _ _ => false) "img" "http" (initState [] [])
        ([sampleRow] ++ sampleRow :: [])).store = 1 :=
  ⟨by decide,
   (import_duplicate_first_occurrence_wins (fun _ _ => false) "img" "http" [] []
      [sampleRow] [] sampleRow (by decide)).2 (by decide) (by decide)⟩

theorem import_malformed_input_rejected_witness :
    (malformedHeader "a,b\n".data = true ∨ hasMalformedRow "a,b\n".data = true) ∧
    (importCards (fun _ _ => false) "img" "http" [] [] "a,b\n".data).store = [] ∧
    (importCards (fun _ _ => false) "img" "http" [] [] "a,b\n".data).trace = [] := by
  have hmal : malformedHeader "a,b\n".data = true := by
    unfold malformedHeader
    rw [← readRecordF_eq]
    exact rfl
  have h := import_malformed_input_rejected (fun _ _ => false) "img" "http" [] []
    "a,b\n".data (Or.inl hmal)
  exact ⟨Or.inl hmal, h.2.1, h.2.2.1⟩

/-- A legacy table state: the base columns and one row, no mainboard. -/
def legacyTable : Table :=
  ⟨cardsBaseCols, [[SQLValue.int 1, SQLValue.text "Luke", SQLValue.null, SQLValue.int 0]]⟩

theorem runMigrations_idempotent_preserves_rows_witness :
    (RunMigrations (some legacyTable) = Except.ok (sqliteAddColumn legacyTable mainboardCol)) ∧
    (("mainboard" ∈ pragmaTableInfo legacyTable ∧
        sqliteAddColumn legacyTable mainboardCol = legacyTable) ∨
     ("mainboard" ∉ pragmaTableInfo legacyTable ∧
        (sqliteAddColumn legacyTable mainboardCol).cols = legacyTable.cols ++ [mainboardCol] ∧
        (sqliteAddColumn legacyTable mainboardCol).rows
          = legacyTable.rows.map (· ++ [SQLValue.int 1]))) :=
  ⟨by exact rfl,
   runMigrations_idempotent_preserves_rows.2.1 legacyTable
     (sqliteAddColumn legacyTable mainboardCol) (by exact rfl)⟩

/-- A sample stored card below its non-mainboard threshold. -/
def shortCard : CardRow := ⟨"Luke", none, 2, false⟩

theorem wishlist_below_threshold_witness :
    (shortCard ∈ GetWishlistCards [shortCard] "") ∧
    (shortCard.owned < threshold shortCard.mainboard ∧ 1 ≤ deficit shortCard ∧
      deficit shortCard = threshold shortCard.mainboard - shortCard.owned) :=
  ⟨by decide, (wishlist_below_threshold [shortCard] "").1 shortCard (by decide)⟩

theorem import_download_rate_limited_witness :
    ((initState [] ["img/S1.png"]).error = none ∧
     cardCSVToName leaderRow ∉ (initState [] ["img/S1.png"]).seen ∧
     cardCSVToName leaderRow ∉ storeNames (initState [] ["img/S1.png"]).store ∧
     cardCSVToName leaderRow ≠ "" ∧
     buildImageFilePath "img" leaderRow.Set leaderRow.CardNumber = Except.ok "img/S1.png" ∧
     "img/S1.png" ∈ (initState [] ["img/S1.png"]).disk) ∧
    ((importStep (fun _ _ => true) "img" "http" (initState [] ["img/S1.png"]) leaderRow).trace
       = (initState [] ["img/S1.png"]).trace ∧
     (importStep (fun _ _ => true) "img" "http" (initState [] ["img/S1.png"]) leaderRow).downloadCount
       = (initState [] ["img/S1.png"]).downloadCount) :=
  ⟨⟨rfl, by decide, by decide, by decide, by exact rfl, by decide⟩,
   (import_download_rate_limited (fun _ _ => true) "img" "http" [] ["img/S1.png"] []).2
     (initState [] ["img/S1.png"]) leaderRow "img/S1.png" rfl (by decide) (by decide)
     (by decide) (by exact rfl) (by decide)⟩

theorem import_image_failure_still_inserts_witness :
    ((initState [] []).error = none ∧
     cardCSVToName sampleRow ∉ (initState [] []).seen ∧
     cardCSVToName sampleRow ∉ storeNames (initState [] []).store ∧
     cardCSVToName sampleRow ≠ "" ∧
     (∃ e, buildImageFilePath "" sampleRow.Set sampleRow.CardNumber = Except.error e)) ∧
    ((importStep (fun _ _ => false) "" "http" (initState [] []) sampleRow).store
       = [] ++ [⟨cardCSVToName sampleRow, none, 0, deriveMainboard sampleRow⟩] ∧
     (importStep (fun _ _ => false) "" "http" (initState [] []) sampleRow).error = none) :=
  ⟨⟨rfl, by decide, by decide, by decide, ⟨"images directory must not be empty", rfl⟩⟩,
   import_image_failure_still_inserts (fun _ _ => false) "" "http" (initState [] [])
     sampleRow rfl (by decide) (by decide) (by decide)
     (Or.inl ⟨"images directory must not be empty", rfl⟩)⟩

theorem import_empty_input_rejected_witness :
    (parseCardsCSV "Set,a,b,c,d,e,f,g,h,i,j,k,l\n".data = Except.ok []) ∧
    (importCards (fun _ _ => false) "img" "http" [] []
        "Set,a,b,c,d,e,f,g,h,i,j,k,l\n".data).error
      = some ⟨400, ImportErrKind.emptyInput⟩ := by
  have hparse : parseCardsCSV "Set,a,b,c,d,e,f,g,h,i,j,k,l\n".data = Except.ok [] := by
    rw [← parseCardsCSVF_eq]
    exact rfl
  exact ⟨hparse,
    (import_empty_input_rejected (fun _ _ => false) "img" "http" [] [] _ hparse).1⟩

theorem import_mainboard_fixed_at_creation_witness :
    ((initState [] []).error = none ∧
     cardCSVToName leaderRow ∉ (initState [] []).seen ∧
     cardCSVToName leaderRow ∉ storeNames (initState [] []).store ∧
     cardCSVToName leaderRow ≠ "") ∧
    (∃ img, (importStep (fun _ _ => false) "img" "http" (initState [] []) leaderRow).store
       = (initState [] []).store ++ [⟨cardCSVToName leaderRow, img, 0, deriveMainboard leaderRow⟩]) :=
  ⟨⟨rfl, by decide, by decide, by decide⟩,
   (import_mainboard_fixed_at_creation (fun _ _ => false) "img" "http").1
     (initState [] []) leaderRow rfl (by decide) (by decide) (by decide)⟩

theorem parseCardsCSV_never_panics_witness :
    (0 < 2 ∧ readRecord "a,b\n".data 2 = some (Except.ok ["a", "b"], [], 2)) ∧
    (["a", "b"] : List String).length = 2 :=
  ⟨⟨by decide, by rw [← readRecordF_eq]; exact rfl⟩,
   parseCardsCSV_never_panics.2 "a,b\n".data [] 2 2 ["a", "b"] (by decide)
     (by rw [← readRecordF_eq]; exact rfl)⟩
